import Mathlib

/-!
Verification of the recipe-app backend (per-user CRUD over recipes, tags and
ingredients).  The data model and the operations are embedded shallowly: the
relational store is a `DB` record of entity lists plus auto-increment
counters, and each HTTP-level operation is a pure function on `DB`.

The repository ships only `app/user/views.py` and the test suites; the user
manager, the recipe serializers and the recipe views are modelled from the
specification (each such definition says so in its doc comment).
-/

/-- A user account row.  Only the fields the claims touch are kept: the
primary key and the stored (normalized) email. -/
structure User where
  id : Nat
  email : String
deriving DecidableEq, Repr

/-- A tag row: owned by one user, labelled by a name. -/
structure Tag where
  id : Nat
  user : Nat
  name : String
deriving DecidableEq, Repr

/-- An ingredient row: same shape as `Tag`. -/
structure Ingredient where
  id : Nat
  user : Nat
  name : String
deriving DecidableEq, Repr

/-- A recipe row.  `tags` and `ingredients` hold the primary keys of the
attached rows (the many-to-many relation sets).  The decimal price is kept
as an integer number of cents; no claim does price arithmetic. -/
structure Recipe where
  id : Nat
  user : Nat
  title : String
  time_minutes : Nat
  price : Int
  description : String
  link : String
  tags : List Nat
  ingredients : List Nat
deriving DecidableEq, Repr

/-- The relational store: one list per table plus per-table auto-increment
counters for fresh primary keys. -/
structure DB where
  users : List User
  recipes : List Recipe
  tags : List Tag
  ingredients : List Ingredient
  nextUserId : Nat
  nextRecipeId : Nat
  nextTagId : Nat
  nextIngredientId : Nat
deriving DecidableEq, Repr

/-- The empty store. -/
def DB.empty : DB :=
  { users := [], recipes := [], tags := [], ingredients := []
    nextUserId := 1, nextRecipeId := 1, nextTagId := 1, nextIngredientId := 1 }

/-- Lowercase every character of a string. -/
def lowerStr (s : String) : String := String.mk (s.data.map Char.toLower)

/-- Split a character list at its LAST occurrence of the at-sign, returning
the part before it and the part after it; `none` when there is no at-sign. -/
def rsplitAtSign : List Char → Option (List Char × List Char)
  | [] => none
  | c :: rest =>
    match rsplitAtSign rest with
    | some (l, d) => some (c :: l, d)
    | none => if c = '@' then some ([], rest) else none

/-- Modelled from the spec: email normalization of the user manager
(`core/models.py` is not under `src/`).  The spec says user creation
"normalizes the email's domain portion to lowercase while preserving the
local part's case": the string is split at its last at-sign and the domain
part is lowercased; a string with no at-sign is left unchanged. -/
def normalize_email (email : String) : String :=
  match rsplitAtSign email.data with
  | some (l, d) => String.mk (l ++ '@' :: d.map Char.toLower)
  | none => email

/-- Modelled from the spec: `UserManager.create_user` (`core/models.py` is
not under `src/`).  "Creating a user with an empty email fails with a
validation error; no user record is persisted"; otherwise the user is stored
with the normalized email.  The password is hashed and stored by framework
code that is out of scope, so it does not appear in the row. -/
def create_user (db : DB) (email password : String) : Except String (DB × User) :=
  if email = "" then
    Except.error "Users must have an email address"
  else
    let u : User := { id := db.nextUserId, email := normalize_email email }
    Except.ok
      ({ db with users := db.users ++ [u], nextUserId := db.nextUserId + 1 }, u)

/-- The store after an attempted user creation: unchanged when the attempt
fails. -/
def create_user_state (db : DB) (email password : String) : DB :=
  match create_user db email password with
  | Except.ok (db2, _) => db2
  | Except.error _ => db

/-- Modelled from the spec: the tag half of the serializer's get-or-create
step (`recipe/serializers.py` is not under `src/`).  "For each name: look up
an existing Tag/Ingredient scoped to `(user, name)`; if found, reuse it; if
not, create it."  Returns the store and the primary key of the resolved
row. -/
def get_or_create_tag (db : DB) (uid : Nat) (name : String) : DB × Nat :=
  match db.tags.find? (fun t => t.user == uid && t.name == name) with
  | some t => (db, t.id)
  | none =>
    let t : Tag := { id := db.nextTagId, user := uid, name := name }
    ({ db with tags := db.tags ++ [t], nextTagId := db.nextTagId + 1 }, t.id)

/-- Modelled from the spec: resolve a whole list of tag names left to right,
get-or-creating each one (`recipe/serializers.py` is not under `src/`). -/
def get_or_create_tags (db : DB) (uid : Nat) : List String → DB × List Nat
  | [] => (db, [])
  | n :: ns =>
    let r1 := get_or_create_tag db uid n
    let r2 := get_or_create_tags r1.1 uid ns
    (r2.1, r1.2 :: r2.2)

/-- Modelled from the spec: the ingredient half of the serializer's
get-or-create step (`recipe/serializers.py` is not under `src/`), identical
in shape to the tag half. -/
def get_or_create_ingredient (db : DB) (uid : Nat) (name : String) : DB × Nat :=
  match db.ingredients.find? (fun i => i.user == uid && i.name == name) with
  | some i => (db, i.id)
  | none =>
    let i : Ingredient := { id := db.nextIngredientId, user := uid, name := name }
    ({ db with
        ingredients := db.ingredients ++ [i],
        nextIngredientId := db.nextIngredientId + 1 }, i.id)

/-- Modelled from the spec: resolve a list of ingredient names left to
right (`recipe/serializers.py` is not under `src/`). -/
def get_or_create_ingredients (db : DB) (uid : Nat) : List String → DB × List Nat
  | [] => (db, [])
  | n :: ns =>
    let r1 := get_or_create_ingredient db uid n
    let r2 := get_or_create_ingredients r1.1 uid ns
    (r2.1, r1.2 :: r2.2)

/-- A recipe creation payload: the required base fields plus the nested
tag and ingredient name lists (empty when absent from the request). -/
structure CreatePayload where
  title : String
  time_minutes : Nat
  price : Int
  description : String
  link : String
  tags : List String
  ingredients : List String
deriving DecidableEq, Repr

/-- A partial-update (PATCH) payload: every writable field is optional and
`none` means absent from the request.  The `user` field models a client
sending an owner id in the payload; the serializer never reads it (the spec
exposes no writable owner field on a recipe). -/
structure UpdatePayload where
  title : Option String
  time_minutes : Option Nat
  price : Option Int
  description : Option String
  link : Option String
  user : Option Nat
  tags : Option (List String)
  ingredients : Option (List String)
deriving DecidableEq, Repr

/-- The all-absent PATCH payload. -/
def UpdatePayload.empty : UpdatePayload :=
  { title := none, time_minutes := none, price := none, description := none,
    link := none, user := none, tags := none, ingredients := none }

/-- Modelled from the spec: `POST /recipe/recipes/` (`recipe/views.py` and
`recipe/serializers.py` are not under `src/`).  The recipe is created for
the authenticated user; the nested tag and ingredient lists are resolved via
get-or-create scoped to that user and the resulting primary keys become the
recipe's relation sets. -/
def create_recipe_api (db : DB) (uid : Nat) (p : CreatePayload) : DB × Recipe :=
  let rt := get_or_create_tags db uid p.tags
  let ri := get_or_create_ingredients rt.1 uid p.ingredients
  let r : Recipe :=
    { id := ri.1.nextRecipeId, user := uid, title := p.title,
      time_minutes := p.time_minutes, price := p.price,
      description := p.description, link := p.link,
      tags := rt.2, ingredients := ri.2 }
  ({ ri.1 with
      recipes := ri.1.recipes ++ [r],
      nextRecipeId := ri.1.nextRecipeId + 1 }, r)

/-- Modelled from the spec: direct `Tag.objects.create` (used by the test
suite; `core/models.py` is not under `src/`): unconditionally insert a tag
row for the given user. -/
def create_tag (db : DB) (uid : Nat) (name : String) : DB × Tag :=
  let t : Tag := { id := db.nextTagId, user := uid, name := name }
  ({ db with tags := db.tags ++ [t], nextTagId := db.nextTagId + 1 }, t)

/-- Modelled from the spec: direct `Ingredient.objects.create`
(`core/models.py` is not under `src/`). -/
def create_ingredient (db : DB) (uid : Nat) (name : String) : DB × Ingredient :=
  let i : Ingredient := { id := db.nextIngredientId, user := uid, name := name }
  ({ db with
      ingredients := db.ingredients ++ [i],
      nextIngredientId := db.nextIngredientId + 1 }, i)

/-- Apply the scalar part of a PATCH payload to a recipe row: a present
field is overwritten, an absent one keeps its prior value.  The owner is not
a writable field. -/
def apply_scalars (p : UpdatePayload) (r : Recipe) : Recipe :=
  { r with
    title := p.title.getD r.title,
    time_minutes := p.time_minutes.getD r.time_minutes,
    price := p.price.getD r.price,
    description := p.description.getD r.description,
    link := p.link.getD r.link }

/-- Modelled from the spec: `PATCH /recipe/recipes/{id}/` (`recipe/views.py`
and `recipe/serializers.py` are not under `src/`).  The queryset is scoped
to the requesting user, so a recipe of another user resolves as 404 and the
store is untouched.  On the owner's own recipe: a present tag (ingredient)
list is resolved by get-or-create and REPLACES the relation set, an absent
one leaves it alone; present scalar fields are overwritten; the response is
200.  `resolve_tags_opt` and `resolve_ings_opt` are the two nested
reconciliation halves of this operation: an absent (`none`) list leaves the
relation alone, a present one is resolved name by name via
get-or-create. -/
def resolve_tags_opt (db : DB) (uid : Nat) : Option (List String) → DB × Option (List Nat)
  | none => (db, none)
  | some ns => ((get_or_create_tags db uid ns).1, some (get_or_create_tags db uid ns).2)

/-- The ingredient half of the PATCH reconciliation; see
`resolve_tags_opt`. -/
def resolve_ings_opt (db : DB) (uid : Nat) : Option (List String) → DB × Option (List Nat)
  | none => (db, none)
  | some ns =>
    ((get_or_create_ingredients db uid ns).1, some (get_or_create_ingredients db uid ns).2)

/-- Modelled from the spec: the PATCH operation itself; see the comment on
`resolve_tags_opt`. -/
def update_recipe (db : DB) (uid rid : Nat) (p : UpdatePayload) : DB × Nat :=
  match db.recipes.find? (fun r => r.id == rid && r.user == uid) with
  | none => (db, 404)
  | some _ =>
    let rt := resolve_tags_opt db uid p.tags
    let ri := resolve_ings_opt rt.1 uid p.ingredients
    let recipes2 := ri.1.recipes.map (fun r =>
      if r.id == rid then
        { apply_scalars p r with
          tags := rt.2.getD r.tags,
          ingredients := ri.2.getD r.ingredients }
      else r)
    ({ ri.1 with recipes := recipes2 }, 200)

/-- The tag ids a PATCH payload resolves to (`none` when the payload has no
tag list), read off the update operation's first reconciliation half. -/
def upd_tids (db : DB) (uid : Nat) (p : UpdatePayload) : Option (List Nat) :=
  (resolve_tags_opt db uid p.tags).2

/-- The ingredient ids a PATCH payload resolves to (`none` when the payload
has no ingredient list). -/
def upd_iids (db : DB) (uid : Nat) (p : UpdatePayload) : Option (List Nat) :=
  (resolve_ings_opt (resolve_tags_opt db uid p.tags).1 uid p.ingredients).2

/-- The store after both reconciliation halves of a PATCH payload have run,
before the recipe row itself is rewritten. -/
def upd_mid (db : DB) (uid : Nat) (p : UpdatePayload) : DB :=
  (resolve_ings_opt (resolve_tags_opt db uid p.tags).1 uid p.ingredients).1

/-- How one recipe row is rewritten by a PATCH aimed at recipe `rid`: the
target row gets the payload's scalar fields and resolved relation sets,
every other row is untouched. -/
def upd_row (db : DB) (uid : Nat) (p : UpdatePayload) (rid : Nat) (x : Recipe) : Recipe :=
  if x.id == rid then
    { apply_scalars p x with
      tags := (upd_tids db uid p).getD x.tags,
      ingredients := (upd_iids db uid p).getD x.ingredients }
  else x

/-- Modelled from the spec: `DELETE /recipe/recipes/{id}/`
(`recipe/views.py` is not under `src/`).  The queryset is scoped to the
requesting user: a recipe of another user (or an unknown id) resolves as
404 with the store untouched; the owner's own recipe is removed with
204. -/
def delete_recipe (db : DB) (uid rid : Nat) : DB × Nat :=
  match db.recipes.find? (fun r => r.id == rid && r.user == uid) with
  | none => (db, 404)
  | some _ =>
    ({ db with recipes := db.recipes.filter (fun r => r.id != rid) }, 204)

/-- Modelled from the spec: `GET /recipe/recipes/` (`recipe/views.py` is not
under `src/`).  "Every list/retrieve/update/delete operation is scoped to
`Recipe.objects.filter(user=request.user)`." -/
def recipe_list (db : DB) (uid : Nat) : List Recipe :=
  db.recipes.filter (fun r => r.user == uid)

/-- A profile-update payload for the manage-self endpoint; `none` means the
field is absent from the request. -/
structure UserUpdatePayload where
  email : Option String
deriving DecidableEq, Repr

/-- `ManageUserView.get_object` (src/app/user/views.py): the object of the
manage-self endpoint is always the authenticated requester — `return
self.request.user`.  The requester is identified by the authenticated user
id carried by the request; no id from the client is consulted. -/
def manage_user_get_object (db : DB) (requester : Nat) : Option User :=
  db.users.find? (fun u => u.id == requester)

/-- `ManageUserView` update path (src/app/user/views.py): the generic
retrieve-update view applies the payload to `get_object`, i.e. to the
requester's own row and no other. -/
def manage_user_update (db : DB) (requester : Nat) (p : UserUpdatePayload) : DB :=
  { db with
      users := db.users.map (fun u =>
        if u.id == requester then { u with email := p.email.getD u.email } else u) }

/-- One client-visible mutating operation against the store. -/
inductive Op where
  | createUser (email password : String)
  | createTag (uid : Nat) (name : String)
  | createIngredient (uid : Nat) (name : String)
  | createRecipe (uid : Nat) (p : CreatePayload)
  | updateRecipe (uid rid : Nat) (p : UpdatePayload)
  | deleteRecipe (uid rid : Nat)
deriving DecidableEq, Repr

/-- Apply one operation to the store, keeping only the resulting state. -/
def applyOp (db : DB) : Op → DB
  | Op.createUser e pw => create_user_state db e pw
  | Op.createTag uid n => (create_tag db uid n).1
  | Op.createIngredient uid n => (create_ingredient db uid n).1
  | Op.createRecipe uid p => (create_recipe_api db uid p).1
  | Op.updateRecipe uid rid p => (update_recipe db uid rid p).1
  | Op.deleteRecipe uid rid => (delete_recipe db uid rid).1

/-- Run a sequence of operations left to right. -/
def run_ops (db : DB) (ops : List Op) : DB := ops.foldl applyOp db

/-- Well-formedness of the tag table: primary keys are distinct and below
the auto-increment counter. -/
def tagsWF (db : DB) : Prop :=
  (db.tags.map Tag.id).Nodup ∧ ∀ t ∈ db.tags, t.id < db.nextTagId

/-- Well-formedness of the ingredient table. -/
def ingsWF (db : DB) : Prop :=
  (db.ingredients.map Ingredient.id).Nodup ∧
    ∀ i ∈ db.ingredients, i.id < db.nextIngredientId

/-- Well-formedness of the recipe table. -/
def recipesWF (db : DB) : Prop :=
  (db.recipes.map Recipe.id).Nodup ∧ ∀ r ∈ db.recipes, r.id < db.nextRecipeId

/-- Well-formedness of the store: every table has distinct primary keys,
all below its auto-increment counter. -/
def WF (db : DB) : Prop := tagsWF db ∧ ingsWF db ∧ recipesWF db

/-- The relation sets of one recipe row resolve to rows owned by the
recipe's own user. -/
def recipeOwnedRels (db : DB) (r : Recipe) : Prop :=
  (∀ tid ∈ r.tags, ∃ t ∈ db.tags, t.id = tid ∧ t.user = r.user) ∧
    ∀ iid ∈ r.ingredients, ∃ i ∈ db.ingredients, i.id = iid ∧ i.user = r.user

/-- The same-owner invariant: every tag and every ingredient attached to a
recipe belongs to the recipe's own user. -/
def sameOwner (db : DB) : Prop := ∀ r ∈ db.recipes, recipeOwnedRels db r

theorem rsplitAtSign_none {d : List Char} (hd : '@' ∉ d) :
    rsplitAtSign d = none := by
  induction d with
  | nil => rfl
  | cons c rest ih =>
    have hc : c ≠ '@' := fun h => hd (h ▸ List.mem_cons_self c rest)
    have hrest : '@' ∉ rest := fun h => hd (List.mem_cons_of_mem c h)
    simp [rsplitAtSign, ih hrest, hc]

theorem rsplitAtSign_append (l : List Char) {d : List Char} (hd : '@' ∉ d) :
    rsplitAtSign (l ++ '@' :: d) = some (l, d) := by
  induction l with
  | nil => simp [rsplitAtSign, rsplitAtSign_none hd]
  | cons c cs ih => simp [rsplitAtSign, ih]

theorem normalize_email_split (local_ domain : String) (hd : '@' ∉ domain.data) :
    normalize_email (local_ ++ "@" ++ domain) = local_ ++ "@" ++ lowerStr domain := by
  have hdata : (local_ ++ "@" ++ domain).data = local_.data ++ '@' :: domain.data := by
    simp [String.data_append]
  have hsplit : rsplitAtSign (local_ ++ "@" ++ domain).data
      = some (local_.data, domain.data) := by
    rw [hdata]; exact rsplitAtSign_append _ hd
  have hout : (local_ ++ "@" ++ lowerStr domain).data
      = local_.data ++ '@' :: domain.data.map Char.toLower := by
    simp [String.data_append, lowerStr]
  unfold normalize_email
  rw [hsplit]
  apply String.ext
  simp [hout]

theorem email_with_at_ne_empty (local_ domain : String) :
    local_ ++ "@" ++ domain ≠ "" := by
  intro h
  have hdata : (local_ ++ "@" ++ domain).data = local_.data ++ '@' :: domain.data := by
    simp [String.data_append]
  have : (local_.data ++ '@' :: domain.data : List Char) = [] := by
    rw [← hdata, h]
  exact absurd (List.append_eq_nil.mp this).2 (by simp)

/-- C6: for every email made of a local part and a domain part, user
creation succeeds and stores the email with the domain lowercased and the
local part preserved exactly. -/
theorem user_email_domain_normalized (db : DB) (pw local_ domain : String)
    (hd : '@' ∉ domain.data) :
    ∃ db2 u, create_user db (local_ ++ "@" ++ domain) pw = Except.ok (db2, u) ∧
      u.email = local_ ++ "@" ++ lowerStr domain ∧ u ∈ db2.users := by
  refine ⟨{ db with
      users := db.users ++
        [⟨db.nextUserId, normalize_email (local_ ++ "@" ++ domain)⟩],
      nextUserId := db.nextUserId + 1 },
    ⟨db.nextUserId, normalize_email (local_ ++ "@" ++ domain)⟩, ?_, ?_, ?_⟩
  · unfold create_user
    rw [if_neg (email_with_at_ne_empty local_ domain)]
  · exact normalize_email_split local_ domain hd
  · simp

/-- Witness for C6 at the spec's example input. -/
theorem user_email_domain_normalized_witness :
    '@' ∉ "Example.com".data ∧
      ∃ db2 u, create_user DB.empty ("Test2" ++ "@" ++ "Example.com") "pw"
          = Except.ok (db2, u) ∧
        u.email = "Test2" ++ "@" ++ lowerStr "Example.com" ∧ u ∈ db2.users :=
  ⟨by decide,
    user_email_domain_normalized DB.empty "pw" "Test2" "Example.com" (by decide)⟩

/-- C7: creating a user with the empty email is rejected with a raised
validation error and the store is left unchanged — no user row is
persisted. -/
theorem empty_email_rejected (db : DB) (pw : String) :
    create_user db "" pw = Except.error "Users must have an email address" ∧
      create_user_state db "" pw = db := by
  constructor
  · rfl
  · rfl

/-- C8: the manage-self endpoint only ever reads or writes the requester's
own account: the retrieved object always carries the requester's id, and
every other user's row is untouched by an update through this endpoint. -/
theorem manage_self_only_requester (db : DB) (a : Nat) (p : UserUpdatePayload)
    (b : User) (hb : b ∈ db.users) (hne : b.id ≠ a) :
    (∀ u, manage_user_get_object db a = some u → u.id = a) ∧
      b ∈ (manage_user_update db a p).users := by
  constructor
  · intro u hu
    have := List.find?_some hu
    simpa using this
  · have himg : (fun u : User =>
        if u.id == a then { u with email := p.email.getD u.email } else u) b = b := by
      simp [hne]
    have hmem := List.mem_map_of_mem (fun u : User =>
        if u.id == a then { u with email := p.email.getD u.email } else u) hb
    rw [himg] at hmem
    simpa [manage_user_update] using hmem

/-- Witness for C8: a two-user store, requester 1, the other account 2. -/
theorem manage_self_only_requester_witness :
    (⟨2, "b@example.com"⟩ : User) ∈
        ({ DB.empty with
            users := [⟨1, "a@example.com"⟩, ⟨2, "b@example.com"⟩] } : DB).users ∧
      (2 : Nat) ≠ 1 ∧
      ((∀ u, manage_user_get_object
            ({ DB.empty with
                users := [⟨1, "a@example.com"⟩, ⟨2, "b@example.com"⟩] } : DB) 1
            = some u → u.id = 1) ∧
        (⟨2, "b@example.com"⟩ : User) ∈
          (manage_user_update
            ({ DB.empty with
                users := [⟨1, "a@example.com"⟩, ⟨2, "b@example.com"⟩] } : DB) 1
            ⟨some "evil@example.com"⟩).users) :=
  ⟨by decide, by decide,
    manage_self_only_requester _ 1 ⟨some "evil@example.com"⟩ _ (by decide) (by decide)⟩

theorem nodup_append_single {α : Type} {l : List α} {a : α}
    (hl : l.Nodup) (ha : a ∉ l) : (l ++ [a]).Nodup := by
  simp [List.nodup_append, hl, ha]

theorem nodup_map_inj {α β : Type} {f : α → β} {l : List α}
    (h : (l.map f).Nodup) :
    ∀ x ∈ l, ∀ y ∈ l, f x = f y → x = y := by
  induction l with
  | nil => intro x hx; simp at hx
  | cons a l ih =>
    simp only [List.map_cons, List.nodup_cons] at h
    intro x hx y hy hf
    rcases List.mem_cons.mp hx with hx1 | hx1 <;>
      rcases List.mem_cons.mp hy with hy1 | hy1
    · rw [hx1, hy1]
    · exact absurd (hf ▸ List.mem_map_of_mem f hy1) (hx1 ▸ h.1)
    · exact absurd (hf ▸ List.mem_map_of_mem f hx1) (hy1 ▸ h.1).elim
    · exact ih h.2 x hx1 y hy1 hf

theorem goc_tag_frame (db : DB) (uid : Nat) (n : String) :
    ((get_or_create_tag db uid n).1).users = db.users ∧
      ((get_or_create_tag db uid n).1).recipes = db.recipes ∧
      ((get_or_create_tag db uid n).1).ingredients = db.ingredients ∧
      ((get_or_create_tag db uid n).1).nextIngredientId = db.nextIngredientId ∧
      ((get_or_create_tag db uid n).1).nextRecipeId = db.nextRecipeId ∧
      ((get_or_create_tag db uid n).1).nextUserId = db.nextUserId := by
  cases hf : db.tags.find? (fun t => t.user == uid && t.name == n) <;>
    simp [get_or_create_tag, hf]

theorem goc_tag_tags_cases (db : DB) (uid : Nat) (n : String) :
    ((get_or_create_tag db uid n).1).tags = db.tags ∨
      ((get_or_create_tag db uid n).1).tags
        = db.tags ++ [⟨db.nextTagId, uid, n⟩] := by
  cases hf : db.tags.find? (fun t => t.user == uid && t.name == n) with
  | none => right; simp [get_or_create_tag, hf]
  | some t => left; simp [get_or_create_tag, hf]

theorem goc_tag_tags_mono (db : DB) (uid : Nat) (n : String)
    {t : Tag} (ht : t ∈ db.tags) :
    t ∈ ((get_or_create_tag db uid n).1).tags := by
  rcases goc_tag_tags_cases db uid n with h | h <;> rw [h] <;> simp [ht]

theorem goc_tag_next_le (db : DB) (uid : Nat) (n : String) :
    db.nextTagId ≤ ((get_or_create_tag db uid n).1).nextTagId := by
  cases hf : db.tags.find? (fun t => t.user == uid && t.name == n) <;>
    simp [get_or_create_tag, hf]

theorem tagsWF_insert (db : DB) (uid : Nat) (n : String) (h : tagsWF db) :
    tagsWF { db with
      tags := db.tags ++ [⟨db.nextTagId, uid, n⟩],
      nextTagId := db.nextTagId + 1 } := by
  obtain ⟨hnd, hlt⟩ := h
  constructor
  · simp only [tagsWF, List.map_append, List.map_cons, List.map_nil]
    refine nodup_append_single hnd ?_
    intro hc
    rcases List.mem_map.mp hc with ⟨t, ht, hid⟩
    exact absurd hid (Nat.ne_of_lt (hlt t ht))
  · intro t ht
    rcases List.mem_append.mp ht with h1 | h1
    · exact Nat.lt_succ_of_lt (hlt t h1)
    · simp at h1
      rw [h1]
      exact Nat.lt_succ_self _

theorem goc_tag_tagsWF (db : DB) (uid : Nat) (n : String) (h : tagsWF db) :
    tagsWF ((get_or_create_tag db uid n).1) := by
  cases hf : db.tags.find? (fun t => t.user == uid && t.name == n) with
  | none =>
    have := tagsWF_insert db uid n h
    simpa [get_or_create_tag, hf] using this
  | some t => simpa [get_or_create_tag, hf] using h

theorem goc_tag_sound (db : DB) (uid : Nat) (n : String) :
    ∃ t ∈ ((get_or_create_tag db uid n).1).tags,
      t.id = (get_or_create_tag db uid n).2 ∧ t.user = uid ∧ t.name = n := by
  cases hf : db.tags.find? (fun t => t.user == uid && t.name == n) with
  | none =>
    refine ⟨⟨db.nextTagId, uid, n⟩, ?_, ?_, rfl, rfl⟩ <;>
      simp [get_or_create_tag, hf]
  | some t =>
    have hp := List.find?_some hf
    have hm := List.mem_of_find?_eq_some hf
    simp only [Bool.and_eq_true, beq_iff_eq] at hp
    refine ⟨t, ?_, ?_, hp.1, hp.2⟩ <;> simp [get_or_create_tag, hf, hm]

theorem goc_tag_charact (db : DB) (uid : Nat) (n : String) :
    (∃ t ∈ db.tags, t.id = (get_or_create_tag db uid n).2
        ∧ t.user = uid ∧ t.name = n)
      ∨ (get_or_create_tag db uid n).2 = db.nextTagId := by
  cases hf : db.tags.find? (fun t => t.user == uid && t.name == n) with
  | none => right; simp [get_or_create_tag, hf]
  | some t =>
    left
    have hp := List.find?_some hf
    have hm := List.mem_of_find?_eq_some hf
    simp only [Bool.and_eq_true, beq_iff_eq] at hp
    exact ⟨t, hm, by simp [get_or_create_tag, hf], hp.1, hp.2⟩

theorem gocs_tags_frame (uid : Nat) (ns : List String) :
    ∀ db : DB,
      ((get_or_create_tags db uid ns).1).users = db.users ∧
      ((get_or_create_tags db uid ns).1).recipes = db.recipes ∧
      ((get_or_create_tags db uid ns).1).ingredients = db.ingredients ∧
      ((get_or_create_tags db uid ns).1).nextIngredientId = db.nextIngredientId ∧
      ((get_or_create_tags db uid ns).1).nextRecipeId = db.nextRecipeId ∧
      ((get_or_create_tags db uid ns).1).nextUserId = db.nextUserId := by
  induction ns with
  | nil => intro db; simp [get_or_create_tags]
  | cons n ns ih =>
    intro db
    obtain ⟨a1, a2, a3, a4, a5, a6⟩ := goc_tag_frame db uid n
    obtain ⟨b1, b2, b3, b4, b5, b6⟩ := ih ((get_or_create_tag db uid n).1)
    simp only [get_or_create_tags]
    exact ⟨b1.trans a1, b2.trans a2, b3.trans a3, b4.trans a4,
      b5.trans a5, b6.trans a6⟩

theorem gocs_tags_mono (uid : Nat) (ns : List String) :
    ∀ (db : DB) (t : Tag), t ∈ db.tags →
      t ∈ ((get_or_create_tags db uid ns).1).tags := by
  induction ns with
  | nil => intro db t ht; simpa [get_or_create_tags] using ht
  | cons n ns ih =>
    intro db t ht
    simp only [get_or_create_tags]
    exact ih _ t (goc_tag_tags_mono db uid n ht)

theorem gocs_tags_next_le (uid : Nat) (ns : List String) :
    ∀ db : DB, db.nextTagId ≤ ((get_or_create_tags db uid ns).1).nextTagId := by
  induction ns with
  | nil => intro db; simp [get_or_create_tags]
  | cons n ns ih =>
    intro db
    simp only [get_or_create_tags]
    exact le_trans (goc_tag_next_le db uid n) (ih _)

theorem gocs_tags_tagsWF (uid : Nat) (ns : List String) :
    ∀ db : DB, tagsWF db → tagsWF ((get_or_create_tags db uid ns).1) := by
  induction ns with
  | nil => intro db h; simpa [get_or_create_tags] using h
  | cons n ns ih =>
    intro db h
    simp only [get_or_create_tags]
    exact ih _ (goc_tag_tagsWF db uid n h)

theorem gocs_tags_sound (uid : Nat) (ns : List String) :
    ∀ db : DB, ∀ tid ∈ (get_or_create_tags db uid ns).2,
      ∃ t ∈ ((get_or_create_tags db uid ns).1).tags,
        t.id = tid ∧ t.user = uid ∧ t.name ∈ ns := by
  induction ns with
  | nil => intro db tid h; simp [get_or_create_tags] at h
  | cons n ns ih =>
    intro db tid h
    simp only [get_or_create_tags, List.mem_cons] at h ⊢
    rcases h with h | h
    · obtain ⟨t, htm, hid, hu, hn⟩ := goc_tag_sound db uid n
      exact ⟨t, gocs_tags_mono uid ns _ t htm, hid.trans h.symm, hu, Or.inl hn⟩
    · obtain ⟨t, htm, hid, hu, hn⟩ := ih _ tid h
      exact ⟨t, htm, hid, hu, Or.inr hn⟩

theorem gocs_tags_complete (uid : Nat) (ns : List String) :
    ∀ db : DB, ∀ m ∈ ns,
      ∃ t ∈ ((get_or_create_tags db uid ns).1).tags,
        t.id ∈ (get_or_create_tags db uid ns).2 ∧ t.user = uid ∧ t.name = m := by
  induction ns with
  | nil => intro db m h; simp at h
  | cons n ns ih =>
    intro db m h
    simp only [get_or_create_tags, List.mem_cons] at h ⊢
    rcases h with h | h
    · obtain ⟨t, htm, hid, hu, hn⟩ := goc_tag_sound db uid n
      exact ⟨t, gocs_tags_mono uid ns _ t htm, Or.inl hid, hu, hn.trans h.symm⟩
    · obtain ⟨t, htm, hid, hu, hn⟩ := ih _ m h
      exact ⟨t, htm, Or.inr hid, hu, hn⟩

theorem gocs_tags_charact (uid : Nat) (ns : List String) :
    ∀ db : DB, ∀ tid ∈ (get_or_create_tags db uid ns).2,
      (∃ t ∈ db.tags, t.id = tid ∧ t.user = uid ∧ t.name ∈ ns)
        ∨ db.nextTagId ≤ tid := by
  induction ns with
  | nil => intro db tid h; simp [get_or_create_tags] at h
  | cons n ns ih =>
    intro db tid h
    simp only [get_or_create_tags, List.mem_cons] at h
    rcases h with h | h
    · rcases goc_tag_charact db uid n with ⟨t, htm, hid, hu, hn⟩ | hnew
      · exact Or.inl ⟨t, htm, hid.trans h.symm, hu, by simp [hn]⟩
      · right; rw [h, hnew]
    · rcases ih ((get_or_create_tag db uid n).1) tid h with ⟨t, htm, hid, hu, hn⟩ | hle
      · rcases goc_tag_tags_cases db uid n with hc | hc
        · rw [hc] at htm
          exact Or.inl ⟨t, htm, hid, hu, List.mem_cons_of_mem _ hn⟩
        · rw [hc] at htm
          rcases List.mem_append.mp htm with h1 | h1
          · exact Or.inl ⟨t, h1, hid, hu, List.mem_cons_of_mem _ hn⟩
          · right
            simp at h1
            rw [h1] at hid
            exact le_of_eq hid
      · exact Or.inr (le_trans (goc_tag_next_le db uid n) hle)

theorem goc_ing_frame (db : DB) (uid : Nat) (n : String) :
    ((get_or_create_ingredient db uid n).1).users = db.users ∧
      ((get_or_create_ingredient db uid n).1).recipes = db.recipes ∧
      ((get_or_create_ingredient db uid n).1).tags = db.tags ∧
      ((get_or_create_ingredient db uid n).1).nextTagId = db.nextTagId ∧
      ((get_or_create_ingredient db uid n).1).nextRecipeId = db.nextRecipeId ∧
      ((get_or_create_ingredient db uid n).1).nextUserId = db.nextUserId := by
  cases hf : db.ingredients.find? (fun i => i.user == uid && i.name == n) <;>
    simp [get_or_create_ingredient, hf]

theorem goc_ing_ings_cases (db : DB) (uid : Nat) (n : String) :
    ((get_or_create_ingredient db uid n).1).ingredients = db.ingredients ∨
      ((get_or_create_ingredient db uid n).1).ingredients
        = db.ingredients ++ [⟨db.nextIngredientId, uid, n⟩] := by
  cases hf : db.ingredients.find? (fun i => i.user == uid && i.name == n) with
  | none => right; simp [get_or_create_ingredient, hf]
  | some i => left; simp [get_or_create_ingredient, hf]

theorem goc_ing_ings_mono (db : DB) (uid : Nat) (n : String)
    {i : Ingredient} (hi : i ∈ db.ingredients) :
    i ∈ ((get_or_create_ingredient db uid n).1).ingredients := by
  rcases goc_ing_ings_cases db uid n with h | h <;> rw [h] <;> simp [hi]

theorem goc_ing_next_le (db : DB) (uid : Nat) (n : String) :
    db.nextIngredientId ≤ ((get_or_create_ingredient db uid n).1).nextIngredientId := by
  cases hf : db.ingredients.find? (fun i => i.user == uid && i.name == n) <;>
    simp [get_or_create_ingredient, hf]

theorem ingsWF_insert (db : DB) (uid : Nat) (n : String) (h : ingsWF db) :
    ingsWF { db with
      ingredients := db.ingredients ++ [⟨db.nextIngredientId, uid, n⟩],
      nextIngredientId := db.nextIngredientId + 1 } := by
  obtain ⟨hnd, hlt⟩ := h
  constructor
  · simp only [ingsWF, List.map_append, List.map_cons, List.map_nil]
    refine nodup_append_single hnd ?_
    intro hc
    rcases List.mem_map.mp hc with ⟨i, hi, hid⟩
    exact absurd hid (Nat.ne_of_lt (hlt i hi))
  · intro i hi
    rcases List.mem_append.mp hi with h1 | h1
    · exact Nat.lt_succ_of_lt (hlt i h1)
    · simp at h1
      rw [h1]
      exact Nat.lt_succ_self _

theorem goc_ing_ingsWF (db : DB) (uid : Nat) (n : String) (h : ingsWF db) :
    ingsWF ((get_or_create_ingredient db uid n).1) := by
  cases hf : db.ingredients.find? (fun i => i.user == uid && i.name == n) with
  | none =>
    have := ingsWF_insert db uid n h
    simpa [get_or_create_ingredient, hf] using this
  | some i => simpa [get_or_create_ingredient, hf] using h

theorem goc_ing_sound (db : DB) (uid : Nat) (n : String) :
    ∃ i ∈ ((get_or_create_ingredient db uid n).1).ingredients,
      i.id = (get_or_create_ingredient db uid n).2 ∧ i.user = uid ∧ i.name = n := by
  cases hf : db.ingredients.find? (fun i => i.user == uid && i.name == n) with
  | none =>
    refine ⟨⟨db.nextIngredientId, uid, n⟩, ?_, ?_, rfl, rfl⟩ <;>
      simp [get_or_create_ingredient, hf]
  | some i =>
    have hp := List.find?_some hf
    have hm := List.mem_of_find?_eq_some hf
    simp only [Bool.and_eq_true, beq_iff_eq] at hp
    refine ⟨i, ?_, ?_, hp.1, hp.2⟩ <;> simp [get_or_create_ingredient, hf, hm]

theorem goc_ing_charact (db : DB) (uid : Nat) (n : String) :
    (∃ i ∈ db.ingredients, i.id = (get_or_create_ingredient db uid n).2
        ∧ i.user = uid ∧ i.name = n)
      ∨ (get_or_create_ingredient db uid n).2 = db.nextIngredientId := by
  cases hf : db.ingredients.find? (fun i => i.user == uid && i.name == n) with
  | none => right; simp [get_or_create_ingredient, hf]
  | some i =>
    left
    have hp := List.find?_some hf
    have hm := List.mem_of_find?_eq_some hf
    simp only [Bool.and_eq_true, beq_iff_eq] at hp
    exact ⟨i, hm, by simp [get_or_create_ingredient, hf], hp.1, hp.2⟩

theorem gocs_ings_frame (uid : Nat) (ns : List String) :
    ∀ db : DB,
      ((get_or_create_ingredients db uid ns).1).users = db.users ∧
      ((get_or_create_ingredients db uid ns).1).recipes = db.recipes ∧
      ((get_or_create_ingredients db uid ns).1).tags = db.tags ∧
      ((get_or_create_ingredients db uid ns).1).nextTagId = db.nextTagId ∧
      ((get_or_create_ingredients db uid ns).1).nextRecipeId = db.nextRecipeId ∧
      ((get_or_create_ingredients db uid ns).1).nextUserId = db.nextUserId := by
  induction ns with
  | nil => intro db; simp [get_or_create_ingredients]
  | cons n ns ih =>
    intro db
    obtain ⟨a1, a2, a3, a4, a5, a6⟩ := goc_ing_frame db uid n
    obtain ⟨b1, b2, b3, b4, b5, b6⟩ := ih ((get_or_create_ingredient db uid n).1)
    simp only [get_or_create_ingredients]
    exact ⟨b1.trans a1, b2.trans a2, b3.trans a3, b4.trans a4,
      b5.trans a5, b6.trans a6⟩

theorem gocs_ings_mono (uid : Nat) (ns : List String) :
    ∀ (db : DB) (i : Ingredient), i ∈ db.ingredients →
      i ∈ ((get_or_create_ingredients db uid ns).1).ingredients := by
  induction ns with
  | nil => intro db i hi; simpa [get_or_create_ingredients] using hi
  | cons n ns ih =>
    intro db i hi
    simp only [get_or_create_ingredients]
    exact ih _ i (goc_ing_ings_mono db uid n hi)

theorem gocs_ings_next_le (uid : Nat) (ns : List String) :
    ∀ db : DB,
      db.nextIngredientId ≤ ((get_or_create_ingredients db uid ns).1).nextIngredientId := by
  induction ns with
  | nil => intro db; simp [get_or_create_ingredients]
  | cons n ns ih =>
    intro db
    simp only [get_or_create_ingredients]
    exact le_trans (goc_ing_next_le db uid n) (ih _)

theorem gocs_ings_ingsWF (uid : Nat) (ns : List String) :
    ∀ db : DB, ingsWF db → ingsWF ((get_or_create_ingredients db uid ns).1) := by
  induction ns with
  | nil => intro db h; simpa [get_or_create_ingredients] using h
  | cons n ns ih =>
    intro db h
    simp only [get_or_create_ingredients]
    exact ih _ (goc_ing_ingsWF db uid n h)

theorem gocs_ings_sound (uid : Nat) (ns : List String) :
    ∀ db : DB, ∀ iid ∈ (get_or_create_ingredients db uid ns).2,
      ∃ i ∈ ((get_or_create_ingredients db uid ns).1).ingredients,
        i.id = iid ∧ i.user = uid ∧ i.name ∈ ns := by
  induction ns with
  | nil => intro db iid h; simp [get_or_create_ingredients] at h
  | cons n ns ih =>
    intro db iid h
    simp only [get_or_create_ingredients, List.mem_cons] at h ⊢
    rcases h with h | h
    · obtain ⟨i, him, hid, hu, hn⟩ := goc_ing_sound db uid n
      exact ⟨i, gocs_ings_mono uid ns _ i him, hid.trans h.symm, hu, Or.inl hn⟩
    · obtain ⟨i, him, hid, hu, hn⟩ := ih _ iid h
      exact ⟨i, him, hid, hu, Or.inr hn⟩

theorem gocs_ings_complete (uid : Nat) (ns : List String) :
    ∀ db : DB, ∀ m ∈ ns,
      ∃ i ∈ ((get_or_create_ingredients db uid ns).1).ingredients,
        i.id ∈ (get_or_create_ingredients db uid ns).2 ∧ i.user = uid ∧ i.name = m := by
  induction ns with
  | nil => intro db m h; simp at h
  | cons n ns ih =>
    intro db m h
    simp only [get_or_create_ingredients, List.mem_cons] at h ⊢
    rcases h with h | h
    · obtain ⟨i, him, hid, hu, hn⟩ := goc_ing_sound db uid n
      exact ⟨i, gocs_ings_mono uid ns _ i him, Or.inl hid, hu, hn.trans h.symm⟩
    · obtain ⟨i, him, hid, hu, hn⟩ := ih _ m h
      exact ⟨i, him, Or.inr hid, hu, hn⟩

theorem gocs_ings_charact (uid : Nat) (ns : List String) :
    ∀ db : DB, ∀ iid ∈ (get_or_create_ingredients db uid ns).2,
      (∃ i ∈ db.ingredients, i.id = iid ∧ i.user = uid ∧ i.name ∈ ns)
        ∨ db.nextIngredientId ≤ iid := by
  induction ns with
  | nil => intro db iid h; simp [get_or_create_ingredients] at h
  | cons n ns ih =>
    intro db iid h
    simp only [get_or_create_ingredients, List.mem_cons] at h
    rcases h with h | h
    · rcases goc_ing_charact db uid n with ⟨i, him, hid, hu, hn⟩ | hnew
      · exact Or.inl ⟨i, him, hid.trans h.symm, hu, by simp [hn]⟩
      · right; rw [h, hnew]
    · rcases ih ((get_or_create_ingredient db uid n).1) iid h with
        ⟨i, him, hid, hu, hn⟩ | hle
      · rcases goc_ing_ings_cases db uid n with hc | hc
        · rw [hc] at him
          exact Or.inl ⟨i, him, hid, hu, List.mem_cons_of_mem _ hn⟩
        · rw [hc] at him
          rcases List.mem_append.mp him with h1 | h1
          · exact Or.inl ⟨i, h1, hid, hu, List.mem_cons_of_mem _ hn⟩
          · right
            simp at h1
            rw [h1] at hid
            exact le_of_eq hid
      · exact Or.inr (le_trans (goc_ing_next_le db uid n) hle)

theorem rto_frame (db : DB) (uid : Nat) (o : Option (List String)) :
    ((resolve_tags_opt db uid o).1).users = db.users ∧
      ((resolve_tags_opt db uid o).1).recipes = db.recipes ∧
      ((resolve_tags_opt db uid o).1).ingredients = db.ingredients ∧
      ((resolve_tags_opt db uid o).1).nextIngredientId = db.nextIngredientId ∧
      ((resolve_tags_opt db uid o).1).nextRecipeId = db.nextRecipeId ∧
      ((resolve_tags_opt db uid o).1).nextUserId = db.nextUserId := by
  cases o with
  | none => simp [resolve_tags_opt]
  | some ns => simpa [resolve_tags_opt] using gocs_tags_frame uid ns db

theorem rto_tags_mono (db : DB) (uid : Nat) (o : Option (List String))
    {t : Tag} (ht : t ∈ db.tags) : t ∈ ((resolve_tags_opt db uid o).1).tags := by
  cases o with
  | none => simpa [resolve_tags_opt] using ht
  | some ns => simpa [resolve_tags_opt] using gocs_tags_mono uid ns db t ht

theorem rto_next_le (db : DB) (uid : Nat) (o : Option (List String)) :
    db.nextTagId ≤ ((resolve_tags_opt db uid o).1).nextTagId := by
  cases o with
  | none => simp [resolve_tags_opt]
  | some ns => simpa [resolve_tags_opt] using gocs_tags_next_le uid ns db

theorem rto_tagsWF (db : DB) (uid : Nat) (o : Option (List String))
    (h : tagsWF db) : tagsWF ((resolve_tags_opt db uid o).1) := by
  cases o with
  | none => simpa [resolve_tags_opt] using h
  | some ns => simpa [resolve_tags_opt] using gocs_tags_tagsWF uid ns db h

theorem rio_frame (db : DB) (uid : Nat) (o : Option (List String)) :
    ((resolve_ings_opt db uid o).1).users = db.users ∧
      ((resolve_ings_opt db uid o).1).recipes = db.recipes ∧
      ((resolve_ings_opt db uid o).1).tags = db.tags ∧
      ((resolve_ings_opt db uid o).1).nextTagId = db.nextTagId ∧
      ((resolve_ings_opt db uid o).1).nextRecipeId = db.nextRecipeId ∧
      ((resolve_ings_opt db uid o).1).nextUserId = db.nextUserId := by
  cases o with
  | none => simp [resolve_ings_opt]
  | some ns => simpa [resolve_ings_opt] using gocs_ings_frame uid ns db

theorem rio_ings_mono (db : DB) (uid : Nat) (o : Option (List String))
    {i : Ingredient} (hi : i ∈ db.ingredients) :
    i ∈ ((resolve_ings_opt db uid o).1).ingredients := by
  cases o with
  | none => simpa [resolve_ings_opt] using hi
  | some ns => simpa [resolve_ings_opt] using gocs_ings_mono uid ns db i hi

theorem rio_next_le (db : DB) (uid : Nat) (o : Option (List String)) :
    db.nextIngredientId ≤ ((resolve_ings_opt db uid o).1).nextIngredientId := by
  cases o with
  | none => simp [resolve_ings_opt]
  | some ns => simpa [resolve_ings_opt] using gocs_ings_next_le uid ns db

theorem rio_ingsWF (db : DB) (uid : Nat) (o : Option (List String))
    (h : ingsWF db) : ingsWF ((resolve_ings_opt db uid o).1) := by
  cases o with
  | none => simpa [resolve_ings_opt] using h
  | some ns => simpa [resolve_ings_opt] using gocs_ings_ingsWF uid ns db h

theorem find_recipe_owner (db : DB) (r : Recipe) (uid : Nat)
    (hr : r ∈ db.recipes) (hu : r.user = uid)
    (hnd : (db.recipes.map Recipe.id).Nodup) :
    db.recipes.find? (fun x => x.id == r.id && x.user == uid) = some r := by
  have hex : (db.recipes.find? (fun x => x.id == r.id && x.user == uid)).isSome := by
    rw [List.find?_isSome]
    exact ⟨r, hr, by simp [hu]⟩
  rcases Option.isSome_iff_exists.mp hex with ⟨y, hy⟩
  have hp := List.find?_some hy
  have hm := List.mem_of_find?_eq_some hy
  simp only [Bool.and_eq_true, beq_iff_eq] at hp
  rw [hy, nodup_map_inj hnd y hm r hr hp.1]

theorem upd_row_id (db : DB) (uid : Nat) (p : UpdatePayload) (rid : Nat)
    (x : Recipe) : (upd_row db uid p rid x).id = x.id := by
  unfold upd_row
  cases hx : x.id == rid <;> simp [apply_scalars]

theorem upd_row_user (db : DB) (uid : Nat) (p : UpdatePayload) (rid : Nat)
    (x : Recipe) : (upd_row db uid p rid x).user = x.user := by
  unfold upd_row
  cases hx : x.id == rid <;> simp [apply_scalars]

theorem upd_row_target (db : DB) (uid : Nat) (p : UpdatePayload)
    (x : Recipe) :
    upd_row db uid p x.id x
      = { apply_scalars p x with
          tags := (upd_tids db uid p).getD x.tags,
          ingredients := (upd_iids db uid p).getD x.ingredients } := by
  simp [upd_row]

theorem upd_row_other (db : DB) (uid : Nat) (p : UpdatePayload) (rid : Nat)
    (x : Recipe) (hx : x.id ≠ rid) : upd_row db uid p rid x = x := by
  simp [upd_row, hx]

theorem update_found_status (db : DB) (uid : Nat) (r : Recipe)
    (p : UpdatePayload) (hr : r ∈ db.recipes) (hu : r.user = uid)
    (hnd : (db.recipes.map Recipe.id).Nodup) :
    (update_recipe db uid r.id p).2 = 200 := by
  unfold update_recipe
  rw [find_recipe_owner db r uid hr hu hnd]

theorem update_found_recipes (db : DB) (uid : Nat) (r : Recipe)
    (p : UpdatePayload) (hr : r ∈ db.recipes) (hu : r.user = uid)
    (hnd : (db.recipes.map Recipe.id).Nodup) :
    (update_recipe db uid r.id p).1.recipes
      = db.recipes.map (upd_row db uid p r.id) := by
  unfold update_recipe
  rw [find_recipe_owner db r uid hr hu hnd]
  have h1 := (rto_frame db uid p.tags).2.1
  have h2 := (rio_frame (resolve_tags_opt db uid p.tags).1 uid p.ingredients).2.1
  simp only []
  rw [h2, h1]
  rfl

theorem update_found_tables (db : DB) (uid : Nat) (r : Recipe)
    (p : UpdatePayload) (hr : r ∈ db.recipes) (hu : r.user = uid)
    (hnd : (db.recipes.map Recipe.id).Nodup) :
    (update_recipe db uid r.id p).1.tags = (upd_mid db uid p).tags ∧
      (update_recipe db uid r.id p).1.ingredients = (upd_mid db uid p).ingredients ∧
      (update_recipe db uid r.id p).1.users = (upd_mid db uid p).users ∧
      (update_recipe db uid r.id p).1.nextTagId = (upd_mid db uid p).nextTagId ∧
      (update_recipe db uid r.id p).1.nextIngredientId
        = (upd_mid db uid p).nextIngredientId ∧
      (update_recipe db uid r.id p).1.nextRecipeId
        = (upd_mid db uid p).nextRecipeId := by
  unfold update_recipe
  rw [find_recipe_owner db r uid hr hu hnd]
  exact ⟨rfl, rfl, rfl, rfl, rfl, rfl⟩

theorem update_target_row (db : DB) (uid : Nat) (r : Recipe) (p : UpdatePayload)
    (hr : r ∈ db.recipes) (hu : r.user = uid)
    (hnd : (db.recipes.map Recipe.id).Nodup) :
    upd_row db uid p r.id r ∈ (update_recipe db uid r.id p).1.recipes ∧
      ∀ x ∈ (update_recipe db uid r.id p).1.recipes,
        x.id = r.id → x = upd_row db uid p r.id r := by
  rw [update_found_recipes db uid r p hr hu hnd]
  constructor
  · exact List.mem_map_of_mem _ hr
  · intro x hx hid
    rcases List.mem_map.mp hx with ⟨y, hy, hxy⟩
    have hyid : y.id = r.id := by
      rw [← upd_row_id db uid p r.id y, hxy, hid]
    have hyr := nodup_map_inj hnd y hy r hr hyid
    rw [← hxy, hyr]

/-- C10: a PATCH modifies only the fields present in the payload: every
field absent from the payload keeps its prior value on the (unique) updated
row, and the owner is unchanged. -/
theorem partial_update_frame (db : DB) (uid : Nat) (r : Recipe)
    (p : UpdatePayload) (hr : r ∈ db.recipes) (hu : r.user = uid)
    (hnd : (db.recipes.map Recipe.id).Nodup) :
    ∃ r2 ∈ (update_recipe db uid r.id p).1.recipes, r2.id = r.id ∧
      r2.user = r.user ∧
      (p.title = none → r2.title = r.title) ∧
      (p.time_minutes = none → r2.time_minutes = r.time_minutes) ∧
      (p.price = none → r2.price = r.price) ∧
      (p.description = none → r2.description = r.description) ∧
      (p.link = none → r2.link = r.link) ∧
      (p.tags = none → r2.tags = r.tags) ∧
      (p.ingredients = none → r2.ingredients = r.ingredients) ∧
      ∀ x ∈ (update_recipe db uid r.id p).1.recipes, x.id = r.id → x = r2 := by
  obtain ⟨hmem, huniq⟩ := update_target_row db uid r p hr hu hnd
  refine ⟨upd_row db uid p r.id r, hmem, upd_row_id db uid p r.id r,
    upd_row_user db uid p r.id r, ?_, ?_, ?_, ?_, ?_, ?_, ?_, huniq⟩
  · intro h; rw [upd_row_target]; simp [apply_scalars, h]
  · intro h; rw [upd_row_target]; simp [apply_scalars, h]
  · intro h; rw [upd_row_target]; simp [apply_scalars, h]
  · intro h; rw [upd_row_target]; simp [apply_scalars, h]
  · intro h; rw [upd_row_target]; simp [apply_scalars, h]
  · intro h; rw [upd_row_target]; simp [upd_tids, resolve_tags_opt, h]
  · intro h
    rw [upd_row_target]
    simp [upd_iids, resolve_ings_opt, h]

/-- Witness for C10: patching only title and link leaves the cooking time,
the price, the description, the relations and the owner untouched. -/
theorem partial_update_frame_witness :
    (⟨1, 1, "Sample recipe", 10, 500, "Sample description",
        "https://www.google.com", [], []⟩ : Recipe) ∈
        ({ DB.empty with
            users := [⟨1, "test@example.com"⟩],
            recipes := [⟨1, 1, "Sample recipe", 10, 500, "Sample description",
              "https://www.google.com", [], []⟩],
            nextUserId := 2, nextRecipeId := 2 } : DB).recipes ∧
      (⟨1, 1, "Sample recipe", 10, 500, "Sample description",
          "https://www.google.com", [], []⟩ : Recipe).user = 1 ∧
      (((({ DB.empty with
            users := [⟨1, "test@example.com"⟩],
            recipes := [⟨1, 1, "Sample recipe", 10, 500, "Sample description",
              "https://www.google.com", [], []⟩],
            nextUserId := 2, nextRecipeId := 2 } : DB).recipes.map Recipe.id)).Nodup) ∧
      ∃ r2 ∈ (update_recipe
          ({ DB.empty with
              users := [⟨1, "test@example.com"⟩],
              recipes := [⟨1, 1, "Sample recipe", 10, 500, "Sample description",
                "https://www.google.com", [], []⟩],
              nextUserId := 2, nextRecipeId := 2 } : DB) 1
          (⟨1, 1, "Sample recipe", 10, 500, "Sample description",
            "https://www.google.com", [], []⟩ : Recipe).id
          ⟨some "Chocolate cheesecake", none, none, none,
            some "https://www.yahoo.com", none, none, none⟩).1.recipes,
        r2.id = (⟨1, 1, "Sample recipe", 10, 500, "Sample description",
            "https://www.google.com", [], []⟩ : Recipe).id ∧
        r2.user = 1 ∧
        ((⟨some "Chocolate cheesecake", none, none, none,
            some "https://www.yahoo.com", none, none, none⟩ : UpdatePayload).title
              = none → r2.title = "Sample recipe") ∧
        ((⟨some "Chocolate cheesecake", none, none, none,
            some "https://www.yahoo.com", none, none, none⟩ : UpdatePayload).time_minutes
              = none → r2.time_minutes = 10) ∧
        ((⟨some "Chocolate cheesecake", none, none, none,
            some "https://www.yahoo.com", none, none, none⟩ : UpdatePayload).price
              = none → r2.price = 500) ∧
        ((⟨some "Chocolate cheesecake", none, none, none,
            some "https://www.yahoo.com", none, none, none⟩ : UpdatePayload).description
              = none → r2.description = "Sample description") ∧
        ((⟨some "Chocolate cheesecake", none, none, none,
            some "https://www.yahoo.com", none, none, none⟩ : UpdatePayload).link
              = none → r2.link = "https://www.google.com") ∧
        ((⟨some "Chocolate cheesecake", none, none, none,
            some "https://www.yahoo.com", none, none, none⟩ : UpdatePayload).tags
              = none → r2.tags = []) ∧
        ((⟨some "Chocolate cheesecake", none, none, none,
            some "https://www.yahoo.com", none, none, none⟩ : UpdatePayload).ingredients
              = none → r2.ingredients = []) ∧
        ∀ x ∈ (update_recipe
            ({ DB.empty with
                users := [⟨1, "test@example.com"⟩],
                recipes := [⟨1, 1, "Sample recipe", 10, 500, "Sample description",
                  "https://www.google.com", [], []⟩],
                nextUserId := 2, nextRecipeId := 2 } : DB) 1
            (⟨1, 1, "Sample recipe", 10, 500, "Sample description",
              "https://www.google.com", [], []⟩ : Recipe).id
            ⟨some "Chocolate cheesecake", none, none, none,
              some "https://www.yahoo.com", none, none, none⟩).1.recipes,
          x.id = (⟨1, 1, "Sample recipe", 10, 500, "Sample description",
              "https://www.google.com", [], []⟩ : Recipe).id → x = r2 :=
  ⟨by decide, by decide, by decide,
    partial_update_frame _ 1 _ _ (by decide) (by decide) (by decide)⟩

/-- C9: a PATCH whose payload names a different user in its `user` field
leaves the recipe's owner unchanged — the serializer has no writable owner
field, so the owning user cannot be reassigned through the update
interface. -/
theorem update_cannot_reassign_owner (db : DB) (uid : Nat) (r : Recipe)
    (p : UpdatePayload) (b : Nat) (hr : r ∈ db.recipes) (hu : r.user = uid)
    (hnd : (db.recipes.map Recipe.id).Nodup)
    (hpu : p.user = some b) (hbne : b ≠ r.user) :
    (∃ x ∈ (update_recipe db uid r.id p).1.recipes, x.id = r.id) ∧
      ∀ x ∈ (update_recipe db uid r.id p).1.recipes,
        x.id = r.id → x.user = r.user := by
  obtain ⟨hmem, huniq⟩ := update_target_row db uid r p hr hu hnd
  constructor
  · exact ⟨upd_row db uid p r.id r, hmem, upd_row_id db uid p r.id r⟩
  · intro x hx hid
    rw [huniq x hx hid]
    exact upd_row_user db uid p r.id r

/-- Witness for C9: user 1 owns recipe 1 and patches it with a payload
naming user 2 as owner; the owner stays user 1. -/
theorem update_cannot_reassign_owner_witness :
    (⟨1, 1, "Sample recipe", 10, 500, "d", "l", [], []⟩ : Recipe) ∈
        ({ DB.empty with
            users := [⟨1, "a@example.com"⟩, ⟨2, "b@example.com"⟩],
            recipes := [⟨1, 1, "Sample recipe", 10, 500, "d", "l", [], []⟩],
            nextUserId := 3, nextRecipeId := 2 } : DB).recipes ∧
      (⟨1, 1, "Sample recipe", 10, 500, "d", "l", [], []⟩ : Recipe).user = 1 ∧
      ((({ DB.empty with
            users := [⟨1, "a@example.com"⟩, ⟨2, "b@example.com"⟩],
            recipes := [⟨1, 1, "Sample recipe", 10, 500, "d", "l", [], []⟩],
            nextUserId := 3, nextRecipeId := 2 } : DB).recipes.map Recipe.id).Nodup) ∧
      (⟨none, none, none, none, none, some 2, none, none⟩ : UpdatePayload).user
          = some 2 ∧
      (2 : Nat) ≠ (⟨1, 1, "Sample recipe", 10, 500, "d", "l", [], []⟩ : Recipe).user ∧
      ((∃ x ∈ (update_recipe
            ({ DB.empty with
                users := [⟨1, "a@example.com"⟩, ⟨2, "b@example.com"⟩],
                recipes := [⟨1, 1, "Sample recipe", 10, 500, "d", "l", [], []⟩],
                nextUserId := 3, nextRecipeId := 2 } : DB) 1
            (⟨1, 1, "Sample recipe", 10, 500, "d", "l", [], []⟩ : Recipe).id
            ⟨none, none, none, none, none, some 2, none, none⟩).1.recipes,
          x.id = (⟨1, 1, "Sample recipe", 10, 500, "d", "l", [], []⟩ : Recipe).id) ∧
        ∀ x ∈ (update_recipe
            ({ DB.empty with
                users := [⟨1, "a@example.com"⟩, ⟨2, "b@example.com"⟩],
                recipes := [⟨1, 1, "Sample recipe", 10, 500, "d", "l", [], []⟩],
                nextUserId := 3, nextRecipeId := 2 } : DB) 1
            (⟨1, 1, "Sample recipe", 10, 500, "d", "l", [], []⟩ : Recipe).id
            ⟨none, none, none, none, none, some 2, none, none⟩).1.recipes,
          x.id = (⟨1, 1, "Sample recipe", 10, 500, "d", "l", [], []⟩ : Recipe).id →
            x.user = (⟨1, 1, "Sample recipe", 10, 500, "d", "l", [], []⟩ : Recipe).user) :=
  ⟨by decide, by decide, by decide, by decide, by decide,
    update_cannot_reassign_owner _ 1 _ _ 2 (by decide) (by decide) (by decide)
      (by decide) (by decide)⟩

theorem upd_tids_some (db : DB) (uid : Nat) (p : UpdatePayload)
    (ts : List String) (h : p.tags = some ts) :
    upd_tids db uid p = some (get_or_create_tags db uid ts).2 := by
  simp [upd_tids, resolve_tags_opt, h]

theorem upd_iids_some (db : DB) (uid : Nat) (p : UpdatePayload)
    (iss : List String) (h : p.ingredients = some iss) :
    upd_iids db uid p
      = some (get_or_create_ingredients
          (resolve_tags_opt db uid p.tags).1 uid iss).2 := by
  simp [upd_iids, resolve_ings_opt, h]

theorem upd_mid_tags (db : DB) (uid : Nat) (p : UpdatePayload) :
    (upd_mid db uid p).tags = ((resolve_tags_opt db uid p.tags).1).tags := by
  simpa [upd_mid] using
    (rio_frame (resolve_tags_opt db uid p.tags).1 uid p.ingredients).2.2.1

/-- C2: when the PATCH payload contains a tag (ingredient) list, the updated
recipe's relation set is exactly the resolved set of the named objects:
every attached id resolves to a row of the requesting user named in the
list, every name in the list has an attached row, previously attached items
whose row is not named in the list are removed, and the empty list leaves
zero attached tags (ingredients). -/
theorem update_relations_replace (db : DB) (uid : Nat) (r : Recipe)
    (p : UpdatePayload) (hr : r ∈ db.recipes) (hu : r.user = uid)
    (hwf : WF db) (hso : sameOwner db) :
    ∃ r2 ∈ (update_recipe db uid r.id p).1.recipes, r2.id = r.id ∧
      (∀ ts, p.tags = some ts →
        (∀ tid ∈ r2.tags, ∃ t ∈ (update_recipe db uid r.id p).1.tags,
            t.id = tid ∧ t.user = uid ∧ t.name ∈ ts) ∧
        (∀ m ∈ ts, ∃ t ∈ (update_recipe db uid r.id p).1.tags,
            t.id ∈ r2.tags ∧ t.user = uid ∧ t.name = m) ∧
        (∀ tid ∈ r.tags, (∀ t ∈ db.tags, t.id = tid → t.name ∉ ts) →
            tid ∉ r2.tags) ∧
        (ts = [] → r2.tags = [])) ∧
      (∀ iss, p.ingredients = some iss →
        (∀ iid ∈ r2.ingredients,
            ∃ i ∈ (update_recipe db uid r.id p).1.ingredients,
              i.id = iid ∧ i.user = uid ∧ i.name ∈ iss) ∧
        (∀ m ∈ iss, ∃ i ∈ (update_recipe db uid r.id p).1.ingredients,
            i.id ∈ r2.ingredients ∧ i.user = uid ∧ i.name = m) ∧
        (∀ iid ∈ r.ingredients,
            (∀ i ∈ db.ingredients, i.id = iid → i.name ∉ iss) →
              iid ∉ r2.ingredients) ∧
        (iss = [] → r2.ingredients = [])) := by
  have hnd : (db.recipes.map Recipe.id).Nodup := hwf.2.2.1
  obtain ⟨hmem, _⟩ := update_target_row db uid r p hr hu hnd
  refine ⟨upd_row db uid p r.id r, hmem, upd_row_id db uid p r.id r, ?_, ?_⟩
  · intro ts hts
    have htags : (upd_row db uid p r.id r).tags
        = (get_or_create_tags db uid ts).2 := by
      rw [upd_row_target]
      simp [upd_tids_some db uid p ts hts]
    have htable : (update_recipe db uid r.id p).1.tags
        = ((get_or_create_tags db uid ts).1).tags := by
      rw [(update_found_tables db uid r p hr hu hnd).1, upd_mid_tags]
      simp [resolve_tags_opt, hts]
    refine ⟨?_, ?_, ?_, ?_⟩
    · intro tid htid
      rw [htags] at htid
      obtain ⟨t, htm, hid, hus, hnm⟩ := gocs_tags_sound uid ts db tid htid
      exact ⟨t, htable ▸ htm, hid, hus, hnm⟩
    · intro m hm
      obtain ⟨t, htm, hid, hus, hnm⟩ := gocs_tags_complete uid ts db m hm
      exact ⟨t, htable ▸ htm, htags ▸ hid, hus, hnm⟩
    · intro tid htid hnone hcontra
      rw [htags] at hcontra
      rcases gocs_tags_charact uid ts db tid hcontra with ⟨t, htm, hid, _, hnm⟩ | hle
      · exact hnone t htm hid hnm
      · obtain ⟨t0, ht0m, ht0id, _⟩ := (hso r hr).1 tid htid
        have hlt := hwf.1.2 t0 ht0m
        omega
    · intro hts0
      subst hts0
      rw [htags]
      rfl
  · intro iss hiss
    have hings : (upd_row db uid p r.id r).ingredients
        = (get_or_create_ingredients
            (resolve_tags_opt db uid p.tags).1 uid iss).2 := by
      rw [upd_row_target]
      simp [upd_iids_some db uid p iss hiss]
    have htable : (update_recipe db uid r.id p).1.ingredients
        = ((get_or_create_ingredients
            (resolve_tags_opt db uid p.tags).1 uid iss).1).ingredients := by
      rw [(update_found_tables db uid r p hr hu hnd).2.1]
      simp [upd_mid, resolve_ings_opt, hiss]
    refine ⟨?_, ?_, ?_, ?_⟩
    · intro iid hiid
      rw [hings] at hiid
      obtain ⟨i, him, hid, hus, hnm⟩ :=
        gocs_ings_sound uid iss (resolve_tags_opt db uid p.tags).1 iid hiid
      exact ⟨i, htable ▸ him, hid, hus, hnm⟩
    · intro m hm
      obtain ⟨i, him, hid, hus, hnm⟩ :=
        gocs_ings_complete uid iss (resolve_tags_opt db uid p.tags).1 m hm
      exact ⟨i, htable ▸ him, hings ▸ hid, hus, hnm⟩
    · intro iid hiid hnone hcontra
      rw [hings] at hcontra
      rcases gocs_ings_charact uid iss (resolve_tags_opt db uid p.tags).1 iid hcontra
        with ⟨i, him, hid, _, hnm⟩ | hle
      · rw [(rto_frame db uid p.tags).2.2.1] at him
        exact hnone i him hid hnm
      · rw [(rto_frame db uid p.tags).2.2.2.1] at hle
        obtain ⟨i0, hi0m, hi0id, _⟩ := (hso r hr).2 iid hiid
        have hlt := hwf.2.1.2 i0 hi0m
        omega
    · intro hiss0
      subst hiss0
      rw [hings]
      rfl

/-- Witness for C2: user 1's recipe has tag 1 ("dessert") attached; a PATCH
with tag list ["lunch"] and ingredient list [] replaces the relation
sets. -/
theorem update_relations_replace_witness :
    (⟨1, 1, "Sample recipe", 10, 500, "d", "l", [1], []⟩ : Recipe) ∈
        ({ DB.empty with
            users := [⟨1, "a@example.com"⟩],
            recipes := [⟨1, 1, "Sample recipe", 10, 500, "d", "l", [1], []⟩],
            tags := [⟨1, 1, "dessert"⟩, ⟨2, 1, "lunch"⟩],
            nextUserId := 2, nextRecipeId := 2, nextTagId := 3 } : DB).recipes ∧
      (⟨1, 1, "Sample recipe", 10, 500, "d", "l", [1], []⟩ : Recipe).user = 1 ∧
      WF ({ DB.empty with
            users := [⟨1, "a@example.com"⟩],
            recipes := [⟨1, 1, "Sample recipe", 10, 500, "d", "l", [1], []⟩],
            tags := [⟨1, 1, "dessert"⟩, ⟨2, 1, "lunch"⟩],
            nextUserId := 2, nextRecipeId := 2, nextTagId := 3 } : DB) ∧
      sameOwner ({ DB.empty with
            users := [⟨1, "a@example.com"⟩],
            recipes := [⟨1, 1, "Sample recipe", 10, 500, "d", "l", [1], []⟩],
            tags := [⟨1, 1, "dessert"⟩, ⟨2, 1, "lunch"⟩],
            nextUserId := 2, nextRecipeId := 2, nextTagId := 3 } : DB) ∧
      ∃ r2 ∈ (update_recipe
          ({ DB.empty with
              users := [⟨1, "a@example.com"⟩],
              recipes := [⟨1, 1, "Sample recipe", 10, 500, "d", "l", [1], []⟩],
              tags := [⟨1, 1, "dessert"⟩, ⟨2, 1, "lunch"⟩],
              nextUserId := 2, nextRecipeId := 2, nextTagId := 3 } : DB) 1
          (⟨1, 1, "Sample recipe", 10, 500, "d", "l", [1], []⟩ : Recipe).id
          (⟨none, none, none, none, none, none, some ["lunch"], some []⟩
            : UpdatePayload)).1.recipes,
        r2.id = (⟨1, 1, "Sample recipe", 10, 500, "d", "l", [1], []⟩ : Recipe).id ∧
        (∀ ts, (⟨none, none, none, none, none, none, some ["lunch"], some []⟩
              : UpdatePayload).tags = some ts →
          (∀ tid ∈ r2.tags, ∃ t ∈ (update_recipe
              ({ DB.empty with
                  users := [⟨1, "a@example.com"⟩],
                  recipes := [⟨1, 1, "Sample recipe", 10, 500, "d", "l", [1], []⟩],
                  tags := [⟨1, 1, "dessert"⟩, ⟨2, 1, "lunch"⟩],
                  nextUserId := 2, nextRecipeId := 2, nextTagId := 3 } : DB) 1
              (⟨1, 1, "Sample recipe", 10, 500, "d", "l", [1], []⟩ : Recipe).id
              (⟨none, none, none, none, none, none, some ["lunch"], some []⟩
                : UpdatePayload)).1.tags,
              t.id = tid ∧ t.user = 1 ∧ t.name ∈ ts) ∧
          (∀ m ∈ ts, ∃ t ∈ (update_recipe
              ({ DB.empty with
                  users := [⟨1, "a@example.com"⟩],
                  recipes := [⟨1, 1, "Sample recipe", 10, 500, "d", "l", [1], []⟩],
                  tags := [⟨1, 1, "dessert"⟩, ⟨2, 1, "lunch"⟩],
                  nextUserId := 2, nextRecipeId := 2, nextTagId := 3 } : DB) 1
              (⟨1, 1, "Sample recipe", 10, 500, "d", "l", [1], []⟩ : Recipe).id
              (⟨none, none, none, none, none, none, some ["lunch"], some []⟩
                : UpdatePayload)).1.tags,
              t.id ∈ r2.tags ∧ t.user = 1 ∧ t.name = m) ∧
          (∀ tid ∈ (⟨1, 1, "Sample recipe", 10, 500, "d", "l", [1], []⟩
              : Recipe).tags,
            (∀ t ∈ ({ DB.empty with
                  users := [⟨1, "a@example.com"⟩],
                  recipes := [⟨1, 1, "Sample recipe", 10, 500, "d", "l", [1], []⟩],
                  tags := [⟨1, 1, "dessert"⟩, ⟨2, 1, "lunch"⟩],
                  nextUserId := 2, nextRecipeId := 2, nextTagId := 3 } : DB).tags,
                t.id = tid → t.name ∉ ts) → tid ∉ r2.tags) ∧
          (ts = [] → r2.tags = [])) ∧
        (∀ iss, (⟨none, none, none, none, none, none, some ["lunch"], some []⟩
              : UpdatePayload).ingredients = some iss →
          (∀ iid ∈ r2.ingredients, ∃ i ∈ (update_recipe
              ({ DB.empty with
                  users := [⟨1, "a@example.com"⟩],
                  recipes := [⟨1, 1, "Sample recipe", 10, 500, "d", "l", [1], []⟩],
                  tags := [⟨1, 1, "dessert"⟩, ⟨2, 1, "lunch"⟩],
                  nextUserId := 2, nextRecipeId := 2, nextTagId := 3 } : DB) 1
              (⟨1, 1, "Sample recipe", 10, 500, "d", "l", [1], []⟩ : Recipe).id
              (⟨none, none, none, none, none, none, some ["lunch"], some []⟩
                : UpdatePayload)).1.ingredients,
              i.id = iid ∧ i.user = 1 ∧ i.name ∈ iss) ∧
          (∀ m ∈ iss, ∃ i ∈ (update_recipe
              ({ DB.empty with
                  users := [⟨1, "a@example.com"⟩],
                  recipes := [⟨1, 1, "Sample recipe", 10, 500, "d", "l", [1], []⟩],
                  tags := [⟨1, 1, "dessert"⟩, ⟨2, 1, "lunch"⟩],
                  nextUserId := 2, nextRecipeId := 2, nextTagId := 3 } : DB) 1
              (⟨1, 1, "Sample recipe", 10, 500, "d", "l", [1], []⟩ : Recipe).id
              (⟨none, none, none, none, none, none, some ["lunch"], some []⟩
                : UpdatePayload)).1.ingredients,
              i.id ∈ r2.ingredients ∧ i.user = 1 ∧ i.name = m) ∧
          (∀ iid ∈ (⟨1, 1, "Sample recipe", 10, 500, "d", "l", [1], []⟩
              : Recipe).ingredients,
            (∀ i ∈ ({ DB.empty with
                  users := [⟨1, "a@example.com"⟩],
                  recipes := [⟨1, 1, "Sample recipe", 10, 500, "d", "l", [1], []⟩],
                  tags := [⟨1, 1, "dessert"⟩, ⟨2, 1, "lunch"⟩],
                  nextUserId := 2, nextRecipeId := 2, nextTagId := 3 } : DB).ingredients,
                i.id = iid → i.name ∉ iss) → iid ∉ r2.ingredients) ∧
          (iss = [] → r2.ingredients = [])) :=
  ⟨by decide, by decide,
    by unfold WF tagsWF ingsWF recipesWF; decide,
    by unfold sameOwner recipeOwnedRels; decide,
    update_relations_replace _ 1 _ _ (by decide) (by decide)
      (by unfold WF tagsWF ingsWF recipesWF; decide)
      (by unfold sameOwner recipeOwnedRels; decide)⟩

/-- C4: a delete request against a recipe owned by someone else returns 404
and leaves the store — in particular the recipe — untouched. -/
theorem delete_other_user_404 (db : DB) (a : Nat) (r : Recipe)
    (hr : r ∈ db.recipes) (hne : r.user ≠ a)
    (hnd : (db.recipes.map Recipe.id).Nodup) :
    delete_recipe db a r.id = (db, 404) ∧
      r ∈ (delete_recipe db a r.id).1.recipes := by
  have hfind : db.recipes.find? (fun x => x.id == r.id && x.user == a) = none := by
    rw [List.find?_eq_none]
    intro x hx hp
    simp only [Bool.and_eq_true, beq_iff_eq] at hp
    have hxr := nodup_map_inj hnd x hx r hr hp.1
    rw [hxr] at hp
    exact hne hp.2
  constructor
  · simp [delete_recipe, hfind]
  · simp [delete_recipe, hfind, hr]

/-- Witness for C4: user 1 tries to delete user 2's recipe. -/
theorem delete_other_user_404_witness :
    (⟨1, 2, "Sample recipe", 10, 500, "d", "l", [], []⟩ : Recipe) ∈
        ({ DB.empty with
            users := [⟨1, "a@example.com"⟩, ⟨2, "b@example.com"⟩],
            recipes := [⟨1, 2, "Sample recipe", 10, 500, "d", "l", [], []⟩],
            nextUserId := 3, nextRecipeId := 2 } : DB).recipes ∧
      (⟨1, 2, "Sample recipe", 10, 500, "d", "l", [], []⟩ : Recipe).user ≠ 1 ∧
      ((({ DB.empty with
            users := [⟨1, "a@example.com"⟩, ⟨2, "b@example.com"⟩],
            recipes := [⟨1, 2, "Sample recipe", 10, 500, "d", "l", [], []⟩],
            nextUserId := 3, nextRecipeId := 2 } : DB).recipes.map Recipe.id).Nodup) ∧
      (delete_recipe
          ({ DB.empty with
              users := [⟨1, "a@example.com"⟩, ⟨2, "b@example.com"⟩],
              recipes := [⟨1, 2, "Sample recipe", 10, 500, "d", "l", [], []⟩],
              nextUserId := 3, nextRecipeId := 2 } : DB) 1
          (⟨1, 2, "Sample recipe", 10, 500, "d", "l", [], []⟩ : Recipe).id
        = (({ DB.empty with
              users := [⟨1, "a@example.com"⟩, ⟨2, "b@example.com"⟩],
              recipes := [⟨1, 2, "Sample recipe", 10, 500, "d", "l", [], []⟩],
              nextUserId := 3, nextRecipeId := 2 } : DB), 404) ∧
        (⟨1, 2, "Sample recipe", 10, 500, "d", "l", [], []⟩ : Recipe) ∈
          (delete_recipe
            ({ DB.empty with
                users := [⟨1, "a@example.com"⟩, ⟨2, "b@example.com"⟩],
                recipes := [⟨1, 2, "Sample recipe", 10, 500, "d", "l", [], []⟩],
                nextUserId := 3, nextRecipeId := 2 } : DB) 1
            (⟨1, 2, "Sample recipe", 10, 500, "d", "l", [], []⟩ : Recipe).id).1.recipes) :=
  ⟨by decide, by decide, by decide,
    delete_other_user_404 _ 1 _ (by decide) (by decide) (by decide)⟩

/-- C3: resolving one name from a recipe payload reuses an existing row of
the requesting user with that name — same primary key, store unchanged, no
duplicate row — and creates a fresh row exactly when no such row exists;
for tags and for ingredients alike. -/
theorem get_or_create_reuse_or_create (db : DB) (uid : Nat) (name : String) :
    ((∃ t ∈ db.tags, t.user = uid ∧ t.name = name) →
      (get_or_create_tag db uid name).1 = db ∧
        ∃ t ∈ db.tags, t.id = (get_or_create_tag db uid name).2 ∧
          t.user = uid ∧ t.name = name) ∧
    ((¬ ∃ t ∈ db.tags, t.user = uid ∧ t.name = name) →
      (get_or_create_tag db uid name).1.tags
          = db.tags ++ [⟨db.nextTagId, uid, name⟩] ∧
        (get_or_create_tag db uid name).2 = db.nextTagId) ∧
    ((∃ i ∈ db.ingredients, i.user = uid ∧ i.name = name) →
      (get_or_create_ingredient db uid name).1 = db ∧
        ∃ i ∈ db.ingredients, i.id = (get_or_create_ingredient db uid name).2 ∧
          i.user = uid ∧ i.name = name) ∧
    ((¬ ∃ i ∈ db.ingredients, i.user = uid ∧ i.name = name) →
      (get_or_create_ingredient db uid name).1.ingredients
          = db.ingredients ++ [⟨db.nextIngredientId, uid, name⟩] ∧
        (get_or_create_ingredient db uid name).2 = db.nextIngredientId) := by
  refine ⟨?_, ?_, ?_, ?_⟩
  · rintro ⟨t, htm, hu, hn⟩
    cases hf : db.tags.find? (fun x => x.user == uid && x.name == name) with
    | none =>
      rw [List.find?_eq_none] at hf
      exact absurd (by simp [hu, hn] : (t.user == uid && t.name == name) = true)
        (hf t htm)
    | some t2 =>
      have hp := List.find?_some hf
      have hm := List.mem_of_find?_eq_some hf
      simp only [Bool.and_eq_true, beq_iff_eq] at hp
      exact ⟨by simp [get_or_create_tag, hf], t2, hm,
        by simp [get_or_create_tag, hf], hp.1, hp.2⟩
  · intro hnone
    cases hf : db.tags.find? (fun x => x.user == uid && x.name == name) with
    | none => constructor <;> simp [get_or_create_tag, hf]
    | some t2 =>
      have hp := List.find?_some hf
      have hm := List.mem_of_find?_eq_some hf
      simp only [Bool.and_eq_true, beq_iff_eq] at hp
      exact absurd ⟨t2, hm, hp.1, hp.2⟩ hnone
  · rintro ⟨i, him, hu, hn⟩
    cases hf : db.ingredients.find? (fun x => x.user == uid && x.name == name) with
    | none =>
      rw [List.find?_eq_none] at hf
      exact absurd (by simp [hu, hn] : (i.user == uid && i.name == name) = true)
        (hf i him)
    | some i2 =>
      have hp := List.find?_some hf
      have hm := List.mem_of_find?_eq_some hf
      simp only [Bool.and_eq_true, beq_iff_eq] at hp
      exact ⟨by simp [get_or_create_ingredient, hf], i2, hm,
        by simp [get_or_create_ingredient, hf], hp.1, hp.2⟩
  · intro hnone
    cases hf : db.ingredients.find? (fun x => x.user == uid && x.name == name) with
    | none => constructor <;> simp [get_or_create_ingredient, hf]
    | some i2 =>
      have hp := List.find?_some hf
      have hm := List.mem_of_find?_eq_some hf
      simp only [Bool.and_eq_true, beq_iff_eq] at hp
      exact absurd ⟨i2, hm, hp.1, hp.2⟩ hnone

/-- C1: after any interleaved sequence of operations, the recipe list of
user A contains exactly the recipes owned by A, and never a recipe owned by
a distinct user B. -/
theorem recipe_list_limited_to_user (db : DB) (ops : List Op) (a b : Nat)
    (hab : a ≠ b) :
    (∀ r, r ∈ recipe_list (run_ops db ops) a ↔
        r ∈ (run_ops db ops).recipes ∧ r.user = a) ∧
      ∀ r ∈ recipe_list (run_ops db ops) a, r.user ≠ b := by
  have hchar : ∀ r, r ∈ recipe_list (run_ops db ops) a ↔
      r ∈ (run_ops db ops).recipes ∧ r.user = a := by
    intro r
    simp [recipe_list, List.mem_filter]
  refine ⟨hchar, ?_⟩
  intro r hr
  rw [(hchar r).mp hr |>.2]
  exact hab

/-- Witness for C1: users 1 and 2 each create a recipe, interleaved; user
1's listing is exactly user 1's recipes and excludes user 2's. -/
theorem recipe_list_limited_to_user_witness :
    (1 : Nat) ≠ 2 ∧
      ((∀ r, r ∈ recipe_list
            (run_ops DB.empty
              [Op.createUser "test@example.com" "testpass",
                Op.createUser "user2@example.com" "testpass",
                Op.createRecipe 2 ⟨"Sample recipe", 10, 500, "d", "l", [], []⟩,
                Op.createRecipe 1 ⟨"Sample recipe", 10, 500, "d", "l", [], []⟩]) 1 ↔
          r ∈ (run_ops DB.empty
              [Op.createUser "test@example.com" "testpass",
                Op.createUser "user2@example.com" "testpass",
                Op.createRecipe 2 ⟨"Sample recipe", 10, 500, "d", "l", [], []⟩,
                Op.createRecipe 1 ⟨"Sample recipe", 10, 500, "d", "l", [], []⟩]).recipes
            ∧ r.user = 1) ∧
        ∀ r ∈ recipe_list
            (run_ops DB.empty
              [Op.createUser "test@example.com" "testpass",
                Op.createUser "user2@example.com" "testpass",
                Op.createRecipe 2 ⟨"Sample recipe", 10, 500, "d", "l", [], []⟩,
                Op.createRecipe 1 ⟨"Sample recipe", 10, 500, "d", "l", [], []⟩]) 1,
          r.user ≠ 2) :=
  ⟨by decide,
    recipe_list_limited_to_user DB.empty
      [Op.createUser "test@example.com" "testpass",
        Op.createUser "user2@example.com" "testpass",
        Op.createRecipe 2 ⟨"Sample recipe", 10, 500, "d", "l", [], []⟩,
        Op.createRecipe 1 ⟨"Sample recipe", 10, 500, "d", "l", [], []⟩]
      1 2 (by decide)⟩

theorem sameOwner_mono {db db2 : DB} (hr : db2.recipes = db.recipes)
    (ht : ∀ t ∈ db.tags, t ∈ db2.tags)
    (hi : ∀ i ∈ db.ingredients, i ∈ db2.ingredients)
    (h : sameOwner db) : sameOwner db2 := by
  intro r hrm
  rw [hr] at hrm
  obtain ⟨h1, h2⟩ := h r hrm
  constructor
  · intro tid htid
    obtain ⟨t, htm, hprops⟩ := h1 tid htid
    exact ⟨t, ht t htm, hprops⟩
  · intro iid hiid
    obtain ⟨i, him, hprops⟩ := h2 iid hiid
    exact ⟨i, hi i him, hprops⟩

theorem tagsWF_congr {db db2 : DB} (h1 : db2.tags = db.tags)
    (h2 : db2.nextTagId = db.nextTagId) (h : tagsWF db) : tagsWF db2 := by
  simp only [tagsWF, h1, h2]
  exact h

theorem ingsWF_congr {db db2 : DB} (h1 : db2.ingredients = db.ingredients)
    (h2 : db2.nextIngredientId = db.nextIngredientId) (h : ingsWF db) :
    ingsWF db2 := by
  simp only [ingsWF, h1, h2]
  exact h

theorem recipesWF_congr {db db2 : DB} (h1 : db2.recipes = db.recipes)
    (h2 : db2.nextRecipeId = db.nextRecipeId) (h : recipesWF db) :
    recipesWF db2 := by
  simp only [recipesWF, h1, h2]
  exact h

theorem cus_frame (db : DB) (e pw : String) :
    (create_user_state db e pw).recipes = db.recipes ∧
      (create_user_state db e pw).tags = db.tags ∧
      (create_user_state db e pw).ingredients = db.ingredients ∧
      (create_user_state db e pw).nextTagId = db.nextTagId ∧
      (create_user_state db e pw).nextIngredientId = db.nextIngredientId ∧
      (create_user_state db e pw).nextRecipeId = db.nextRecipeId := by
  by_cases he : e = "" <;> simp [create_user_state, create_user, he]

theorem create_user_preserves (db : DB) (e pw : String)
    (hwf : WF db) (hso : sameOwner db) :
    WF (create_user_state db e pw) ∧ sameOwner (create_user_state db e pw) := by
  obtain ⟨f1, f2, f3, f4, f5, f6⟩ := cus_frame db e pw
  refine ⟨⟨tagsWF_congr f2 f4 hwf.1, ingsWF_congr f3 f5 hwf.2.1,
    recipesWF_congr f1 f6 hwf.2.2⟩, ?_⟩
  exact sameOwner_mono f1 (fun t ht => f2 ▸ ht) (fun i hi => f3 ▸ hi) hso

theorem create_tag_preserves (db : DB) (uid : Nat) (n : String)
    (hwf : WF db) (hso : sameOwner db) :
    WF (create_tag db uid n).1 ∧ sameOwner (create_tag db uid n).1 := by
  refine ⟨⟨tagsWF_insert db uid n hwf.1,
    ingsWF_congr rfl rfl hwf.2.1, recipesWF_congr rfl rfl hwf.2.2⟩, ?_⟩
  exact @sameOwner_mono db (create_tag db uid n).1 rfl
    (fun t ht => by simp [create_tag, ht]) (fun i hi => hi) hso

theorem create_ingredient_preserves (db : DB) (uid : Nat) (n : String)
    (hwf : WF db) (hso : sameOwner db) :
    WF (create_ingredient db uid n).1 ∧
      sameOwner (create_ingredient db uid n).1 := by
  refine ⟨⟨tagsWF_congr rfl rfl hwf.1, ingsWF_insert db uid n hwf.2.1,
    recipesWF_congr rfl rfl hwf.2.2⟩, ?_⟩
  exact @sameOwner_mono db (create_ingredient db uid n).1 rfl
    (fun t ht => ht) (fun i hi => by simp [create_ingredient, hi]) hso

theorem recipesWF_insert (db0 : DB) (r : Recipe) (hid : r.id = db0.nextRecipeId)
    (h : recipesWF db0) :
    ((db0.recipes ++ [r]).map Recipe.id).Nodup ∧
      ∀ x ∈ db0.recipes ++ [r], x.id < db0.nextRecipeId + 1 := by
  obtain ⟨hnd, hlt⟩ := h
  constructor
  · simp only [List.map_append, List.map_cons, List.map_nil]
    refine nodup_append_single hnd ?_
    intro hc
    rcases List.mem_map.mp hc with ⟨y, hy, hyid⟩
    rw [hid] at hyid
    exact absurd hyid (Nat.ne_of_lt (hlt y hy))
  · intro x hx
    rcases List.mem_append.mp hx with h1 | h1
    · exact Nat.lt_succ_of_lt (hlt x h1)
    · simp at h1
      rw [h1, hid]
      exact Nat.lt_succ_self _

theorem create_recipe_preserves (db : DB) (uid : Nat) (p : CreatePayload)
    (hwf : WF db) (hso : sameOwner db) :
    WF (create_recipe_api db uid p).1 ∧
      sameOwner (create_recipe_api db uid p).1 := by
  obtain ⟨t1, t2, t3, t4, t5, t6⟩ := gocs_tags_frame uid p.tags db
  obtain ⟨i1, i2, i3, i4, i5, i6⟩ :=
    gocs_ings_frame uid p.ingredients (get_or_create_tags db uid p.tags).1
  have hTagsWF1 : tagsWF (get_or_create_tags db uid p.tags).1 :=
    gocs_tags_tagsWF uid p.tags db hwf.1
  have hIngsWF1 : ingsWF (get_or_create_tags db uid p.tags).1 :=
    ingsWF_congr t3 t4 hwf.2.1
  have hRecWF1 : recipesWF (get_or_create_tags db uid p.tags).1 :=
    recipesWF_congr t2 t5 hwf.2.2
  have hTagsWF2 : tagsWF (get_or_create_ingredients
      (get_or_create_tags db uid p.tags).1 uid p.ingredients).1 :=
    tagsWF_congr i3 i4 hTagsWF1
  have hIngsWF2 : ingsWF (get_or_create_ingredients
      (get_or_create_tags db uid p.tags).1 uid p.ingredients).1 :=
    gocs_ings_ingsWF uid p.ingredients (get_or_create_tags db uid p.tags).1 hIngsWF1
  have hRecWF2 : recipesWF (get_or_create_ingredients
      (get_or_create_tags db uid p.tags).1 uid p.ingredients).1 :=
    recipesWF_congr i2 i5 hRecWF1
  obtain ⟨hnd2, hlt2⟩ := recipesWF_insert
    (get_or_create_ingredients
      (get_or_create_tags db uid p.tags).1 uid p.ingredients).1
    { id := (get_or_create_ingredients
        (get_or_create_tags db uid p.tags).1 uid p.ingredients).1.nextRecipeId,
      user := uid, title := p.title, time_minutes := p.time_minutes,
      price := p.price, description := p.description, link := p.link,
      tags := (get_or_create_tags db uid p.tags).2,
      ingredients := (get_or_create_ingredients
        (get_or_create_tags db uid p.tags).1 uid p.ingredients).2 }
    rfl hRecWF2
  constructor
  · exact ⟨hTagsWF2, hIngsWF2, hnd2, hlt2⟩
  · intro x hx
    have hx2 : x ∈ (get_or_create_ingredients
        (get_or_create_tags db uid p.tags).1 uid p.ingredients).1.recipes ++
        [{ id := (get_or_create_ingredients
              (get_or_create_tags db uid p.tags).1 uid p.ingredients).1.nextRecipeId,
            user := uid, title := p.title, time_minutes := p.time_minutes,
            price := p.price, description := p.description, link := p.link,
            tags := (get_or_create_tags db uid p.tags).2,
            ingredients := (get_or_create_ingredients
              (get_or_create_tags db uid p.tags).1 uid p.ingredients).2 }] := hx
    rcases List.mem_append.mp hx2 with h1 | h1
    · rw [i2, t2] at h1
      obtain ⟨h1t, h1i⟩ := hso x h1
      constructor
      · intro tid htid
        obtain ⟨t, htm, hprops⟩ := h1t tid htid
        refine ⟨t, ?_, hprops⟩
        show t ∈ (get_or_create_ingredients
            (get_or_create_tags db uid p.tags).1 uid p.ingredients).1.tags
        rw [i3]
        exact gocs_tags_mono uid p.tags db t htm
      · intro iid hiid
        obtain ⟨i, him, hprops⟩ := h1i iid hiid
        refine ⟨i, ?_, hprops⟩
        show i ∈ (get_or_create_ingredients
            (get_or_create_tags db uid p.tags).1 uid p.ingredients).1.ingredients
        exact gocs_ings_mono uid p.ingredients _ i (t3 ▸ him)
    · simp only [List.mem_singleton] at h1
      subst h1
      constructor
      · intro tid htid
        obtain ⟨t, htm, hid, hus, _⟩ := gocs_tags_sound uid p.tags db tid htid
        refine ⟨t, ?_, hid, hus⟩
        show t ∈ (get_or_create_ingredients
            (get_or_create_tags db uid p.tags).1 uid p.ingredients).1.tags
        rw [i3]
        exact htm
      · intro iid hiid
        obtain ⟨i, him, hid, hus, _⟩ :=
          gocs_ings_sound uid p.ingredients
            (get_or_create_tags db uid p.tags).1 iid hiid
        exact ⟨i, him, hid, hus⟩

theorem upd_mid_ings_mono (db : DB) (uid : Nat) (p : UpdatePayload)
    {i : Ingredient} (hi : i ∈ db.ingredients) :
    i ∈ (upd_mid db uid p).ingredients := by
  have h1 : i ∈ ((resolve_tags_opt db uid p.tags).1).ingredients := by
    rw [(rto_frame db uid p.tags).2.2.1]
    exact hi
  exact rio_ings_mono (resolve_tags_opt db uid p.tags).1 uid p.ingredients h1

theorem upd_mid_tags_mono (db : DB) (uid : Nat) (p : UpdatePayload)
    {t : Tag} (ht : t ∈ db.tags) : t ∈ (upd_mid db uid p).tags := by
  rw [upd_mid_tags]
  exact rto_tags_mono db uid p.tags ht

theorem update_recipe_preserves (db : DB) (uid rid : Nat) (p : UpdatePayload)
    (hwf : WF db) (hso : sameOwner db) :
    WF (update_recipe db uid rid p).1 ∧
      sameOwner (update_recipe db uid rid p).1 := by
  cases hf : db.recipes.find? (fun r => r.id == rid && r.user == uid) with
  | none =>
    have hid : (update_recipe db uid rid p).1 = db := by
      simp [update_recipe, hf]
    rw [hid]
    exact ⟨hwf, hso⟩
  | some r0 =>
    have hp := List.find?_some hf
    have hm := List.mem_of_find?_eq_some hf
    simp only [Bool.and_eq_true, beq_iff_eq] at hp
    obtain ⟨hpid, hpu⟩ := hp
    subst hpid
    have hnd : (db.recipes.map Recipe.id).Nodup := hwf.2.2.1
    have hrec := update_found_recipes db uid r0 p hm hpu hnd
    have htab := update_found_tables db uid r0 p hm hpu hnd
    have hmidTagsWF : tagsWF (upd_mid db uid p) :=
      tagsWF_congr
        (rio_frame (resolve_tags_opt db uid p.tags).1 uid p.ingredients).2.2.1
        (rio_frame (resolve_tags_opt db uid p.tags).1 uid p.ingredients).2.2.2.1
        (rto_tagsWF db uid p.tags hwf.1)
    have hmidIngsWF : ingsWF (upd_mid db uid p) :=
      rio_ingsWF (resolve_tags_opt db uid p.tags).1 uid p.ingredients
        (ingsWF_congr (rto_frame db uid p.tags).2.2.1
          (rto_frame db uid p.tags).2.2.2.1 hwf.2.1)
    have hmidNextRec : (upd_mid db uid p).nextRecipeId = db.nextRecipeId := by
      have ha :=
        (rio_frame (resolve_tags_opt db uid p.tags).1 uid p.ingredients).2.2.2.2.1
      have hb := (rto_frame db uid p.tags).2.2.2.2.1
      exact (ha.trans hb :)
    have hids : (db.recipes.map (upd_row db uid p r0.id)).map Recipe.id
        = db.recipes.map Recipe.id := by
      rw [List.map_map]
      apply List.map_congr_left
      intro a _
      exact upd_row_id db uid p r0.id a
    constructor
    · refine ⟨tagsWF_congr htab.1 htab.2.2.2.1 hmidTagsWF,
        ingsWF_congr htab.2.1 htab.2.2.2.2.1 hmidIngsWF, ?_, ?_⟩
      · rw [hrec, hids]
        exact hnd
      · intro x hx
        rw [hrec] at hx
        rcases List.mem_map.mp hx with ⟨y, hy, hxy⟩
        have hxid : x.id = y.id := by rw [← hxy, upd_row_id]
        have hxlt : x.id < db.nextRecipeId := hxid ▸ hwf.2.2.2 y hy
        have hnx : (update_recipe db uid r0.id p).1.nextRecipeId
            = db.nextRecipeId := htab.2.2.2.2.2.trans hmidNextRec
        rw [hnx]
        exact hxlt
    · intro x hx
      rw [hrec] at hx
      rcases List.mem_map.mp hx with ⟨y, hy, hxy⟩
      by_cases hyid : y.id = r0.id
      · have hyr : y = r0 := nodup_map_inj hnd y hy r0 hm hyid
        subst hyr
        rw [← hxy]
        constructor
        · intro tid htid
          have htags : (upd_row db uid p y.id y).tags
              = (upd_tids db uid p).getD y.tags := by
            rw [upd_row_target]
          rw [htags] at htid
          cases hpt : p.tags with
          | none =>
            have : upd_tids db uid p = none := by
              simp [upd_tids, resolve_tags_opt, hpt]
            rw [this] at htid
            simp only [Option.getD_none] at htid
            obtain ⟨t, htm, hprops⟩ := (hso y hy).1 tid htid
            refine ⟨t, ?_, ?_⟩
            · rw [htab.1]
              exact upd_mid_tags_mono db uid p htm
            · simpa [upd_row_user] using hprops
          | some ts =>
            rw [upd_tids_some db uid p ts hpt] at htid
            simp only [Option.getD_some] at htid
            obtain ⟨t, htm, hid, hus, _⟩ := gocs_tags_sound uid ts db tid htid
            refine ⟨t, ?_, hid, ?_⟩
            · rw [htab.1, upd_mid_tags]
              simp only [resolve_tags_opt, hpt]
              exact htm
            · rw [upd_row_user, hpu]
              exact hus
        · intro iid hiid
          have hings : (upd_row db uid p y.id y).ingredients
              = (upd_iids db uid p).getD y.ingredients := by
            rw [upd_row_target]
          rw [hings] at hiid
          cases hpi : p.ingredients with
          | none =>
            have : upd_iids db uid p = none := by
              simp [upd_iids, resolve_ings_opt, hpi]
            rw [this] at hiid
            simp only [Option.getD_none] at hiid
            obtain ⟨i, him, hprops⟩ := (hso y hy).2 iid hiid
            refine ⟨i, ?_, ?_⟩
            · rw [htab.2.1]
              exact upd_mid_ings_mono db uid p him
            · simpa [upd_row_user] using hprops
          | some iss =>
            rw [upd_iids_some db uid p iss hpi] at hiid
            simp only [Option.getD_some] at hiid
            obtain ⟨i, him, hid, hus, _⟩ :=
              gocs_ings_sound uid iss (resolve_tags_opt db uid p.tags).1 iid hiid
            refine ⟨i, ?_, hid, ?_⟩
            · rw [htab.2.1]
              simp only [upd_mid, resolve_ings_opt, hpi]
              exact him
            · rw [upd_row_user, hpu]
              exact hus
      · have hxy2 : x = y := by
          rw [← hxy, upd_row_other db uid p r0.id y hyid]
        subst hxy2
        obtain ⟨h1t, h1i⟩ := hso x hy
        constructor
        · intro tid htid
          obtain ⟨t, htm, hprops⟩ := h1t tid htid
          refine ⟨t, ?_, hprops⟩
          rw [htab.1]
          exact upd_mid_tags_mono db uid p htm
        · intro iid hiid
          obtain ⟨i, him, hprops⟩ := h1i iid hiid
          refine ⟨i, ?_, hprops⟩
          rw [htab.2.1]
          exact upd_mid_ings_mono db uid p him

theorem delete_recipe_preserves (db : DB) (uid rid : Nat)
    (hwf : WF db) (hso : sameOwner db) :
    WF (delete_recipe db uid rid).1 ∧ sameOwner (delete_recipe db uid rid).1 := by
  cases hf : db.recipes.find? (fun r => r.id == rid && r.user == uid) with
  | none =>
    have hid : (delete_recipe db uid rid).1 = db := by
      simp [delete_recipe, hf]
    rw [hid]
    exact ⟨hwf, hso⟩
  | some r0 =>
    have hrec : (delete_recipe db uid rid).1.recipes
        = db.recipes.filter (fun r => r.id != rid) := by
      simp [delete_recipe, hf]
    have hsub : ∀ x ∈ (delete_recipe db uid rid).1.recipes, x ∈ db.recipes := by
      intro x hx
      rw [hrec] at hx
      exact List.mem_of_mem_filter hx
    constructor
    · refine ⟨tagsWF_congr (by simp [delete_recipe, hf])
        (by simp [delete_recipe, hf]) hwf.1,
        ingsWF_congr (by simp [delete_recipe, hf])
          (by simp [delete_recipe, hf]) hwf.2.1, ?_, ?_⟩
      · rw [hrec]
        exact ((List.filter_sublist db.recipes).map Recipe.id).nodup hwf.2.2.1
      · intro x hx
        have hxlt := hwf.2.2.2 x (hsub x hx)
        have hnx : (delete_recipe db uid rid).1.nextRecipeId = db.nextRecipeId := by
          simp [delete_recipe, hf]
        rw [hnx]
        exact hxlt
    · intro x hx
      obtain ⟨h1t, h1i⟩ := hso x (hsub x hx)
      constructor
      · intro tid htid
        obtain ⟨t, htm, hprops⟩ := h1t tid htid
        refine ⟨t, ?_, hprops⟩
        have : (delete_recipe db uid rid).1.tags = db.tags := by
          simp [delete_recipe, hf]
        rw [this]
        exact htm
      · intro iid hiid
        obtain ⟨i, him, hprops⟩ := h1i iid hiid
        refine ⟨i, ?_, hprops⟩
        have : (delete_recipe db uid rid).1.ingredients = db.ingredients := by
          simp [delete_recipe, hf]
        rw [this]
        exact him

theorem applyOp_preserves (db : DB) (op : Op)
    (hwf : WF db) (hso : sameOwner db) :
    WF (applyOp db op) ∧ sameOwner (applyOp db op) := by
  cases op with
  | createUser e pw => exact create_user_preserves db e pw hwf hso
  | createTag uid n => exact create_tag_preserves db uid n hwf hso
  | createIngredient uid n => exact create_ingredient_preserves db uid n hwf hso
  | createRecipe uid p => exact create_recipe_preserves db uid p hwf hso
  | updateRecipe uid rid p => exact update_recipe_preserves db uid rid p hwf hso
  | deleteRecipe uid rid => exact delete_recipe_preserves db uid rid hwf hso

theorem run_ops_preserves (ops : List Op) :
    ∀ db : DB, WF db → sameOwner db →
      WF (run_ops db ops) ∧ sameOwner (run_ops db ops) := by
  induction ops with
  | nil => intro db hwf hso; exact ⟨hwf, hso⟩
  | cons op ops ih =>
    intro db hwf hso
    obtain ⟨hwf2, hso2⟩ := applyOp_preserves db op hwf hso
    simpa [run_ops, List.foldl_cons] using ih (applyOp db op) hwf2 hso2

/-- C5: the same-owner invariant — every tag and every ingredient attached
to a recipe belongs to the recipe's own user — holds in every state
reachable by any sequence of create/update/delete operations from a
well-formed state satisfying it. -/
theorem same_owner_invariant (db : DB) (ops : List Op)
    (hwf : WF db) (hso : sameOwner db) : sameOwner (run_ops db ops) :=
  (run_ops_preserves ops db hwf hso).2

/-- Witness for C5: from the empty store, two users create recipes with
nested tags and ingredients, patch them, and delete one; the invariant
holds in the resulting state. -/
theorem same_owner_invariant_witness :
    WF DB.empty ∧ sameOwner DB.empty ∧
      sameOwner (run_ops DB.empty
        [Op.createUser "test@example.com" "testpass",
          Op.createUser "user2@example.com" "testpass",
          Op.createTag 1 "vegan",
          Op.createRecipe 1 ⟨"Avocado lime cheesecake", 60, 2000, "", "",
            ["vegan", "dessert"], []⟩,
          Op.createRecipe 2 ⟨"Thai prawn red curry", 20, 700, "", "", [],
            ["prawns", "coconut milk", "red curry paste"]⟩,
          Op.updateRecipe 1 1
            ⟨none, none, none, none, none, none, some ["lunch"], some []⟩,
          Op.deleteRecipe 2 2]) :=
  ⟨by unfold WF tagsWF ingsWF recipesWF; decide,
    by unfold sameOwner recipeOwnedRels; decide,
    same_owner_invariant DB.empty
      [Op.createUser "test@example.com" "testpass",
        Op.createUser "user2@example.com" "testpass",
        Op.createTag 1 "vegan",
        Op.createRecipe 1 ⟨"Avocado lime cheesecake", 60, 2000, "", "",
          ["vegan", "dessert"], []⟩,
        Op.createRecipe 2 ⟨"Thai prawn red curry", 20, 700, "", "", [],
          ["prawns", "coconut milk", "red curry paste"]⟩,
        Op.updateRecipe 1 1
          ⟨none, none, none, none, none, none, some ["lunch"], some []⟩,
        Op.deleteRecipe 2 2]
      (by unfold WF tagsWF ingsWF recipesWF; decide)
      (by unfold sameOwner recipeOwnedRels; decide)⟩
